import Mathlib

/-!
Verification of the Amiga 500 USB HID keyboard firmware
(`src/Amiga500-USB-Keyboard-Leonardo.ino`, second/latest sketch revision,
lines 1464-2903). The sketch runs on an ATmega32U4 (Arduino Leonardo):
`uint8_t` arithmetic is modelled as `Nat` with explicit `% 256` or masking,
`uint32_t` as `Nat` with `% 2^32`, and `size_t` is 2 bytes on AVR.

The development has three layers, each a shallow embedding of the
corresponding part of the sketch:
 * the EEPROM macro persistence code (`adler32`, `saveMacrosToEEPROM`,
   `loadMacrosFromEEPROM`, `cleanMacros`);
 * the key-event dispatch code (`processKeyCode`, `keyPress`, `keyRelease`,
   `keystroke`, the function-layer dispatcher and the macro engine entry
   points);
 * the wire-protocol decoder state machine inside `handleKeyboard`.
-/

namespace A500

/-! ## Compile-time constants (sketch lines 1484-1522) -/

def MAX_MACRO_LENGTH : Nat := 32

def MACRO_SLOTS : Nat := 5

def CONCURENT_MACROS : Nat := 2

def MACRO_SAVE_VERSION : Nat := 4

def SIZE_OF_EEPROM : Nat := 1024

def AMIGA_KEY_COUNT : Nat := 0x68

/-! ## Macro data model (sketch lines 1814-1833)

`MacroKeyEvent` is `uint8_t keyCode; bool isPressed; uint32_t delay;` —
6 bytes on AVR (no padding).  The `isPressed` field is modelled by its
memory byte so that the checksum, which the sketch computes over the raw
bytes of the `macros` array, can be expressed over the serialization. -/

structure MacroKeyEvent where
  keyCode : Nat
  isPressed : Nat
  delay : Nat
deriving DecidableEq, Repr

/-- One macro slot: a fixed array of `MAX_MACRO_LENGTH` events plus a
`uint8_t length`; 193 bytes on AVR. -/
structure Macro where
  keyEvents : List MacroKeyEvent
  length : Nat
deriving DecidableEq, Repr

/-- The five-slot `macros` array, 965 bytes on AVR. -/
abbrev Macros := List Macro

def zeroEvent : MacroKeyEvent := ⟨0, 0, 0⟩

def zeroMacro : Macro := ⟨List.replicate MAX_MACRO_LENGTH zeroEvent, 0⟩

/-- The result of `cleanMacros()` (line 2697): `memset(macros, 0, ...)`. -/
def zeroMacros : Macros := List.replicate MACRO_SLOTS zeroMacro

/-- Well-formedness of an in-memory `macros` array: the list dimensions of
the fixed-size C arrays, and each field within the range of its C type. -/
def WFEvent (e : MacroKeyEvent) : Prop :=
  e.keyCode < 256 ∧ e.isPressed < 256 ∧ e.delay < 2 ^ 32

def WFMacro (m : Macro) : Prop :=
  m.keyEvents.length = MAX_MACRO_LENGTH ∧ m.length < 256 ∧
    ∀ e ∈ m.keyEvents, WFEvent e

def WFMacros (ms : Macros) : Prop :=
  ms.length = MACRO_SLOTS ∧ ∀ m ∈ ms, WFMacro m

instance (e : MacroKeyEvent) : Decidable (WFEvent e) := by
  unfold WFEvent; infer_instance

instance (m : Macro) : Decidable (WFMacro m) := by
  unfold WFMacro; infer_instance

instance (ms : Macros) : Decidable (WFMacros ms) := by
  unfold WFMacros; infer_instance

/-! ## Byte serialization

`EEPROM.put` / `EEPROM.get` copy the raw little-endian AVR memory bytes of
the object, so the EEPROM image of the `macros` array is exactly its
in-memory byte serialization: for each slot 32 six-byte events then the
length byte. -/

def encode2 (n : Nat) : List Nat :=
  [n % 256, n / 256 % 256]

def encode4 (n : Nat) : List Nat :=
  [n % 256, n / 256 % 256, n / 65536 % 256, n / 16777216 % 256]

def serializeEvent (e : MacroKeyEvent) : List Nat :=
  [e.keyCode, e.isPressed] ++ encode4 e.delay

def serializeMacro (m : Macro) : List Nat :=
  (m.keyEvents.map serializeEvent).flatten ++ [m.length]

def serializeMacros (ms : Macros) : List Nat :=
  (ms.map serializeMacro).flatten

def parseEvent (bs : List Nat) : MacroKeyEvent :=
  ⟨bs.getD 0 0, bs.getD 1 0,
    bs.getD 2 0 + 256 * bs.getD 3 0 + 65536 * bs.getD 4 0 +
      16777216 * bs.getD 5 0⟩

def parseEvents : Nat → List Nat → List MacroKeyEvent
  | 0, _ => []
  | n + 1, bs => parseEvent (bs.take 6) :: parseEvents n (bs.drop 6)

def parseMacro (bs : List Nat) : Macro :=
  ⟨parseEvents MAX_MACRO_LENGTH bs, bs.getD 192 0⟩

def parseMacrosN : Nat → List Nat → List Macro
  | 0, _ => []
  | n + 1, bs => parseMacro (bs.take 193) :: parseMacrosN n (bs.drop 193)

def parseMacros (bs : List Nat) : Macros :=
  parseMacrosN MACRO_SLOTS bs

/-! ## Adler-32 checksum (sketch lines 1990-2009)

`adler32(Macro *macros, size_t len)` walks the raw bytes of the macros
array; here it takes that byte list directly. -/

def MOD_ADLER : Nat := 65521

def adlerStep (ab : Nat × Nat) (d : Nat) : Nat × Nat :=
  ((ab.1 + d) % MOD_ADLER, (ab.2 + (ab.1 + d) % MOD_ADLER) % MOD_ADLER)

def adler32 (data : List Nat) : Nat :=
  ((data.foldl adlerStep (1, 0)).2 <<< 16) ||| (data.foldl adlerStep (1, 0)).1

/-! ## EEPROM save / load (sketch lines 2011-2108)

The EEPROM is a byte list.  `saveMacrosToEEPROM` first checks
`sizeof(macros) + sizeof(size_t) + 1 + 4 <= 1024` (on AVR:
965 + 2 + 1 + 4 = 972) and refuses to write otherwise; then it writes the
version byte, the 2-byte `size_t` size, the 965 payload bytes, and the
4-byte checksum, leaving bytes past address 971 untouched. -/

def sizeofMacros : Nat := 965

def saveMacrosToEEPROM (eeprom : List Nat) (ms : Macros) : List Nat :=
  if sizeofMacros + 2 + 1 + 4 > SIZE_OF_EEPROM then
    eeprom
  else
    [MACRO_SAVE_VERSION] ++ encode2 sizeofMacros ++ serializeMacros ms ++
      encode4 (adler32 (serializeMacros ms)) ++ eeprom.drop 972

/-- Decode the little-endian `uint32_t` checksum stored at `addr`. -/
def read4 (bs : List Nat) (addr : Nat) : Nat :=
  bs.getD addr 0 + 256 * bs.getD (addr + 1) 0 +
    65536 * bs.getD (addr + 2) 0 + 16777216 * bs.getD (addr + 3) 0

/-- `loadMacrosFromEEPROM` (lines 2053-2108): reads the version byte and
the `size_t` size field, rejects on a version or size mismatch, then loads
the 965 payload bytes into `macros` and accepts only if the Adler-32
checksum it recomputes over those in-memory bytes equals the stored one;
on any mismatch it runs `cleanMacros()` and returns `false`. -/
def loadMacrosFromEEPROM (bs : List Nat) : Bool × Macros :=
  let save_version := bs.getD 0 0
  let size_of_macros := bs.getD 1 0 + 256 * bs.getD 2 0
  if save_version ≠ MACRO_SAVE_VERSION then
    (false, zeroMacros)
  else if size_of_macros ≠ sizeofMacros then
    (false, zeroMacros)
  else
    let payload := (bs.drop 3).take sizeofMacros
    let loaded := parseMacros payload
    let storedChecksum := read4 bs 968
    let calculatedChecksum := adler32 payload
    if storedChecksum ≠ calculatedChecksum then
      (false, zeroMacros)
    else
      (true, loaded)

/-! ## Key dispatch layer

Shallow embedding of the dispatch code of the sketch: the global state
touched by `processKeyCode` and its callees is collected in `SysState`,
and every function becomes a state transformer.  `millis()` is modelled by
the (unchanging) field `now`; the two `HID().SendReport` wrappers only
update the corresponding previous-report snapshot. -/

/-- `keyTable` (sketch lines 1661-1781): Amiga key code to HID key code /
HID modifier bitmask, 0x68 entries. -/
def keyTable : List Nat := [
  0x35, 0x1E, 0x1F, 0x20, 0x21, 0x22, 0x23, 0x24,
  0x25, 0x26, 0x27, 0x2D, 0x2E, 0x31, 0x00, 0x62,
  0x14, 0x1A, 0x08, 0x15, 0x17, 0x1C, 0x18, 0x0C,
  0x12, 0x13, 0x2F, 0x30, 0x00, 0x59, 0x5A, 0x5B,
  0x04, 0x16, 0x07, 0x09, 0x0A, 0x0B, 0x0D, 0x0E,
  0x0F, 0x33, 0x34, 0x32, 0x00, 0x5C, 0x5D, 0x5E,
  0x64, 0x1D, 0x1B, 0x06, 0x19, 0x05, 0x11, 0x10,
  0x36, 0x37, 0x38, 0x00, 0x63, 0x5F, 0x60, 0x61,
  0x2C, 0x2A, 0x2B, 0x58, 0x28, 0x29, 0x4C, 0x44,
  0x45, 0x46, 0x56, 0x00, 0x52, 0x51, 0x4F, 0x50,
  0x3A, 0x3B, 0x3C, 0x3D, 0x3E, 0x3F, 0x40, 0x41,
  0x42, 0x43, 0x53, 0x47, 0x54, 0x55, 0x57, 0x00,
  0x02, 0x20, 0x00, 0x01, 0x04, 0x40, 0x08, 0x10]

/-- `specialKeys` (sketch lines 1783-1789): Help, CapsLock, NumLock,
ScrollLock. -/
def specialKeys : List Nat := [0x5F, 0x62, 0x5A, 0x5B]

def isSpecialKey (keyCode : Nat) : Bool := specialKeys.contains keyCode

/-- `isAmigaModifierKey` (sketch lines 2519-2534). -/
def isAmigaModifierKey (keyCode : Nat) : Bool :=
  keyCode == 0x60 || keyCode == 0x61 || keyCode == 0x63 || keyCode == 0x64 ||
    keyCode == 0x65 || keyCode == 0x66 || keyCode == 0x67

/-- `macroSlotFromKeyCode` (sketch lines 2881-2889): `uint8_t slot =
keyCode - AMIGA_KEY_F6` (mod-256 wraparound), clamped to the last slot. -/
def macroSlotFromKeyCode (keyCode : Nat) : Nat :=
  let slot := (keyCode + 256 - 0x55) % 256
  if slot ≥ MACRO_SLOTS then MACRO_SLOTS - 1 else slot

/-- The Arduino `KeyReport`: modifier byte plus six key slots. -/
structure KeyReport where
  modifiers : Nat
  keys : List Nat
deriving DecidableEq, Repr

def zeroKeyReport : KeyReport := ⟨0, List.replicate 6 0⟩

/-- `MacroPlayStatus` (sketch lines 1827-1833). -/
structure MacroPlayStatus where
  playing : Bool
  loop : Bool
  macroIndex : Nat
  playStartTime : Nat
deriving DecidableEq, Repr

def clearedPlayStatus : MacroPlayStatus := ⟨false, false, 0, 0⟩

/-- The global mutable state touched by the dispatch code (sketch lines
1835-1892 and 2355), plus the EEPROM contents and the current `millis()`
reading. -/
structure SysState where
  keyReport : KeyReport
  prevkeyReport : KeyReport
  macroKeyReport : KeyReport
  macroPrevkeyReport : KeyReport
  mmKeys : Nat
  functionMode : Bool
  ignoreNextRelease : Nat
  recording : Bool
  recordingSlot : Bool
  macro_looping : Bool
  robotMacroMode : Bool
  recordingMacroSlot : Nat
  recordingMacroIndex : Nat
  macros : Macros
  macroPlayStatus : List MacroPlayStatus
  eeprom : List Nat
  now : Nat
deriving DecidableEq, Repr

/-- `sendReport` (lines 2290-2301): transmit and update the snapshot only
when the live report differs from the previously sent one. -/
def sendReport (s : SysState) : SysState :=
  if s.keyReport = s.prevkeyReport then s
  else { s with prevkeyReport := s.keyReport }

/-- `sendReportMacro` (lines 2312-2319). -/
def sendMacroReport (s : SysState) : SysState :=
  if s.macroKeyReport = s.macroPrevkeyReport then s
  else { s with macroPrevkeyReport := s.macroKeyReport }

/-- `releaseAllMacro` (lines 2327-2331): `resetReportMacro()` then
`sendReportMacro()`. -/
def releaseAllMacroReport (s : SysState) : SysState :=
  sendMacroReport { s with macroKeyReport := zeroKeyReport }

/-- `stopAllMacros` (lines 2774-2787). -/
def stopAllMacros (s : SysState) : SysState :=
  releaseAllMacroReport
    { s with macroPlayStatus := s.macroPlayStatus.map fun st =>
        if st.playing then clearedPlayStatus else st }

/-- `cleanMacros` (lines 2697-2700). -/
def cleanMacros (s : SysState) : SysState :=
  { s with macros := zeroMacros }

/-- `resetMacros` (lines 2702-2710). -/
def resetMacros (s : SysState) : SysState :=
  let s1 := cleanMacros (stopAllMacros s)
  { s1 with eeprom := saveMacrosToEEPROM s1.eeprom s1.macros }

/-- `startRecording` (lines 2649-2662). -/
def startRecording (s : SysState) : SysState :=
  if ¬ s.recording then
    { stopAllMacros s with
        recordingMacroIndex := 0
        recordingMacroSlot := 0
        recordingSlot := false
        recording := true }
  else s

/-- The delay-normalisation loop of `stopRecording` (lines 2674-2678):
`keyEvents[i].delay -= firstDelay` for `i < length`, with `uint32_t`
wraparound. -/
def normalizeEvents (first : Nat) : Nat → List MacroKeyEvent → List MacroKeyEvent
  | _, [] => []
  | 0, evs => evs
  | n + 1, e :: t =>
      { e with delay := (e.delay + 2 ^ 32 - first % 2 ^ 32) % 2 ^ 32 } ::
        normalizeEvents first n t

/-- `stopRecording` (lines 2664-2695). -/
def stopRecording (s : SysState) : SysState :=
  if s.recording then
    let mac := s.macros.getD s.recordingMacroSlot zeroMacro
    let first := (mac.keyEvents.getD 0 zeroEvent).delay
    let mac2 : Macro := ⟨normalizeEvents first mac.length mac.keyEvents, mac.length⟩
    let s1 := { s with
        recording := false
        recordingSlot := false
        macros := s.macros.set s.recordingMacroSlot mac2
        functionMode := false }
    { s1 with eeprom := saveMacrosToEEPROM s1.eeprom s1.macros }
  else s

/-- `record_key` (lines 2860-2879). -/
def record_key (keycode : Nat) (isPressed : Bool) (s : SysState) : SysState :=
  if s.recording ∧ s.recordingSlot ∧ s.recordingMacroIndex < MAX_MACRO_LENGTH then
    let mac := s.macros.getD s.recordingMacroSlot zeroMacro
    let ev : MacroKeyEvent := ⟨keycode, if isPressed then 1 else 0, s.now % 2 ^ 32⟩
    let mac2 : Macro := ⟨mac.keyEvents.set s.recordingMacroIndex ev,
      s.recordingMacroIndex + 1⟩
    let s1 := { s with
        macros := s.macros.set s.recordingMacroSlot mac2
        recordingMacroIndex := s.recordingMacroIndex + 1 }
    if s.recordingMacroIndex + 1 ≥ MAX_MACRO_LENGTH then stopRecording s1 else s1
  else s

/-- `nMacrosPlaying` (lines 2760-2771). -/
def nMacrosPlaying (s : SysState) : Nat :=
  (s.macroPlayStatus.filter (·.playing)).length

/-- `playMacroSlot` (lines 2712-2745): start the slot when not recording,
not already playing and below the concurrency cap; otherwise fall into the
stop/toggle branch, which clears the slot status and runs
`releaseAllMacro()`. -/
def playMacroSlot (slot : Nat) (s : SysState) : SysState :=
  if ¬ s.recording ∧ ¬ (s.macroPlayStatus.getD slot clearedPlayStatus).playing ∧
      nMacrosPlaying s < CONCURENT_MACROS then
    { s with macroPlayStatus :=
        (s.macroPlayStatus.set slot ⟨true, s.macro_looping, 0, s.now % 2 ^ 32⟩) }
  else
    releaseAllMacroReport
      { s with macroPlayStatus := s.macroPlayStatus.set slot clearedPlayStatus }

/-- First-fit slot assignment in `keyPress` (lines 2546-2553). -/
def replaceFirstZero : List Nat → Nat → List Nat
  | [], _ => []
  | x :: t, h => if x = 0 then h :: t else x :: replaceFirstZero t h

/-- Slot clearing in `keyRelease` (lines 2566-2575): every slot holding
the HID code is zeroed. -/
def clearMatching (l : List Nat) (h : Nat) : List Nat :=
  l.map fun x => if x = h then 0 else x

/-- `keyPress` (lines 2536-2556). -/
def keyPress (keyCode : Nat) (s : SysState) : SysState :=
  let s0 := record_key keyCode true s
  let hidCode := keyTable.getD keyCode 0
  if isAmigaModifierKey keyCode then
    sendReport { s0 with keyReport :=
      { s0.keyReport with modifiers := s0.keyReport.modifiers ||| hidCode } }
  else
    sendReport { s0 with keyReport :=
      { s0.keyReport with keys := replaceFirstZero s0.keyReport.keys hidCode } }

/-- `keyRelease` (lines 2558-2577): `modifiers &= ~hidCode` on a `uint8_t`
is masking with the byte complement. -/
def keyRelease (keyCode : Nat) (s : SysState) : SysState :=
  let s0 := record_key keyCode false s
  let hidCode := keyTable.getD keyCode 0
  if isAmigaModifierKey keyCode then
    sendReport { s0 with keyReport :=
      { s0.keyReport with modifiers := s0.keyReport.modifiers &&& (255 ^^^ hidCode) } }
  else
    sendReport { s0 with keyReport :=
      { s0.keyReport with keys := clearMatching s0.keyReport.keys hidCode } }

/-- `keystroke` (lines 2579-2599): transiently occupy the first free slot
with the given code and modifiers, send, then restore and send again. -/
def keystroke (keyCode modifiers : Nat) (s : SysState) : SysState :=
  match s.keyReport.keys.findIdx? (· = 0) with
  | none => s
  | some i =>
    let origMods := s.keyReport.modifiers
    let origKeys := s.keyReport.keys
    let s1 := sendReport { s with keyReport := ⟨modifiers, origKeys.set i keyCode⟩ }
    sendReport { s1 with keyReport := ⟨origMods, (origKeys.set i keyCode).set i 0⟩ }

/-- `multimediaKeystroke` (lines 2642-2647): set the consumer-control bit,
send, clear it, send. -/
def multimediaKeystroke (keyBit : Nat) (s : SysState) : SysState :=
  { s with mmKeys := (s.mmKeys ||| keyBit) &&& (255 ^^^ keyBit) }

/-- The `switch` of `handleFunctionModeKey` (lines 2452-2516). -/
def functionLayerAction (keyCode : Nat) (t : SysState) : SysState :=
  if keyCode = 0x50 then keystroke 0x44 0 t
  else if keyCode = 0x51 then keystroke 0x45 0 t
  else if keyCode = 0x5D then keystroke 0x46 0 t
  else if keyCode = 0x0F then keystroke 0x49 0 t
  else if keyCode = 0x52 then startRecording t
  else if keyCode = 0x53 then stopRecording t
  else if keyCode = 0x54 then { t with macro_looping := ¬ t.macro_looping }
  else if keyCode = 0x41 then stopAllMacros t
  else if keyCode = 0x46 then resetMacros t
  else if keyCode = 0x13 then { t with robotMacroMode := ¬ t.robotMacroMode }
  else if 0x55 ≤ keyCode ∧ keyCode ≤ 0x59 then
    playMacroSlot (macroSlotFromKeyCode keyCode) t
  else if keyCode = 0x4C then multimediaKeystroke 0x20 t
  else if keyCode = 0x4D then multimediaKeystroke 0x40 t
  else if keyCode = 0x4E then multimediaKeystroke 0x01 t
  else if keyCode = 0x4F then multimediaKeystroke 0x02 t
  else if keyCode = 0x44 then multimediaKeystroke 0x08 t
  else if keyCode = 0x40 then multimediaKeystroke 0x04 t
  else if keyCode = 0x37 then multimediaKeystroke 0x10 t
  else t

/-- `handleFunctionModeKey` (lines 2445-2517): records the code in
`ignoreNextRelease` (so that the matching key-up is consumed), then
dispatches the function-layer action. -/
def handleFunctionModeKey (keyCode : Nat) (s : SysState) : SysState :=
  functionLayerAction keyCode { s with ignoreNextRelease := keyCode }

/-- `processKeyCode` (lines 2357-2443). -/
def processKeyCode (keyCode : Nat) (isPressed : Bool) (s : SysState) : SysState :=
  if ¬ (keyCode < AMIGA_KEY_COUNT) then s
  else if s.ignoreNextRelease > 0 ∧ s.ignoreNextRelease = keyCode ∧ ¬ isPressed then
    { s with ignoreNextRelease := 0 }
  else if keyCode = 0x5F then { s with functionMode := isPressed }
  else if isPressed ∧ keyCode = 0x62 then keystroke 0x39 0 s
  else if isPressed ∧ keyCode = 0x5A then keystroke 0x53 0 s
  else if isPressed ∧ keyCode = 0x5B then keystroke 0x47 0 s
  else if isPressed ∧ s.functionMode then handleFunctionModeKey keyCode s
  else if isPressed ∧ s.recording ∧ ¬ s.recordingSlot then
    let s1 :=
      if 0x55 ≤ keyCode ∧ keyCode ≤ 0x59 then
        { s with
            recordingMacroSlot := macroSlotFromKeyCode keyCode
            macros := s.macros.set (macroSlotFromKeyCode keyCode) zeroMacro
            recordingMacroIndex := 0
            recordingSlot := true }
      else s
    { s1 with ignoreNextRelease := keyCode }
  else if isPressed then
    if ¬ isSpecialKey keyCode then keyPress keyCode s else s
  else
    if ¬ isSpecialKey keyCode then keyRelease keyCode s else s


/-- A concrete, non-trivial macros array used by the persistence
witnesses: slot 0 records pressing and releasing Amiga key `A` (0x20). -/
def wMacros : Macros :=
  (⟨⟨0x20, 1, 0⟩ :: ⟨0x20, 0, 50⟩ :: List.replicate 30 zeroEvent, 2⟩ : Macro) ::
    List.replicate 4 zeroMacro

/-! ## Wire-protocol decoder (sketch lines 2192-2279)

`handleKeyboard()` is a polled state machine over three input lines
(clock, serial data, reset — reset is active low) and four `static`
variables.  One call of `handleKeyboard` becomes one `handleKeyboardStep`
on a `DecState`.  The calls it makes into the dispatch layer —
`keystroke(0x4C, 0x05)` on reset and `processKeyCode(code, isKeyDown)`
after the eighth bit — are returned as emitted events; `functionMode`,
which the reset branch assigns directly, is carried in the state, as are
the macro `playing` flags, which no line of `handleKeyboard` reads or
writes. -/

inductive KState where
  | SYNCH_HI
  | SYNCH_LO
  | HANDSHAKE
  | READ
  | WAIT_LO
  | WAIT_RES
deriving DecidableEq, Repr

/-- One poll's reading of the port bits and `micros()`. -/
structure PinInput where
  clkHigh : Bool
  spHigh : Bool
  resHigh : Bool
  nowMicros : Nat
deriving DecidableEq, Repr

/-- Calls `handleKeyboard` makes into the dispatch layer. -/
inductive Emit where
  | keystrokeEv (keyCode modifiers : Nat)
  | keyEv (keyCode : Nat) (isPressed : Bool)
deriving DecidableEq, Repr

/-- The decoder's `static` variables (lines 2195-2198) together with
`functionMode` and the macro playing flags. -/
structure DecState where
  kstate : KState
  handshakeTimer : Nat
  currentKeyCode : Nat
  bitIndex : Nat
  functionMode : Bool
  macroPlaying : List Bool
deriving DecidableEq, Repr

def MIN_HANDSHAKE_WAIT_TIME : Nat := 65

/-- One poll of `handleKeyboard` (lines 2200-2279).  `bitIndex--` is a
`uint8_t` post-decrement: when it is 0 the test fails and it wraps to
255; the sample is then the key-up/down flag, `processKeyCode` is called,
and the state returns to `HANDSHAKE` (which resets `bitIndex` to 7). -/
def handleKeyboardStep (inp : PinInput) (s : DecState) : DecState × List Emit :=
  if inp.resHigh = false ∧ s.kstate ≠ KState.WAIT_RES then
    ({ s with functionMode := false, kstate := KState.WAIT_RES },
      [Emit.keystrokeEv 0x4C 0x05])
  else if s.kstate = KState.WAIT_RES then
    if inp.resHigh then ({ s with kstate := KState.SYNCH_HI }, []) else (s, [])
  else if s.kstate = KState.SYNCH_HI then
    if inp.clkHigh = false then ({ s with kstate := KState.SYNCH_LO }, [])
    else (s, [])
  else if s.kstate = KState.SYNCH_LO then
    if inp.clkHigh then ({ s with kstate := KState.HANDSHAKE }, []) else (s, [])
  else if s.kstate = KState.HANDSHAKE then
    if s.handshakeTimer = 0 then
      ({ s with handshakeTimer := inp.nowMicros }, [])
    else if (inp.nowMicros + 2 ^ 32 - s.handshakeTimer % 2 ^ 32) % 2 ^ 32 >
        MIN_HANDSHAKE_WAIT_TIME then
      ({ s with
          handshakeTimer := 0
          kstate := KState.WAIT_LO
          currentKeyCode := 0
          bitIndex := 7 }, [])
    else (s, [])
  else if s.kstate = KState.READ then
    if inp.clkHigh then
      if s.bitIndex ≠ 0 then
        ({ s with
            currentKeyCode :=
              (s.currentKeyCode |||
                ((if inp.spHigh then 0 else 1) <<< (s.bitIndex - 1))) % 256
            bitIndex := s.bitIndex - 1
            kstate := KState.WAIT_LO }, [])
      else
        ({ s with bitIndex := 255, kstate := KState.HANDSHAKE },
          [Emit.keyEv s.currentKeyCode inp.spHigh])
    else (s, [])
  else
    if inp.clkHigh = false then ({ s with kstate := KState.READ }, [])
    else (s, [])

/-- Run the decoder over a sequence of polls, collecting its calls. -/
def decRun (s : DecState) (inps : List PinInput) : DecState × List Emit :=
  match inps with
  | [] => (s, [])
  | i :: t =>
    let s1 := handleKeyboardStep i s
    let s2 := decRun s1.1 t
    (s2.1, s1.2 ++ s2.2)

/-- A poll carrying one data bit on a clock-high edge.  The data line is
inverted on the wire: a logical 1 is transmitted as SP low. -/
def dataPoll (bit : Bool) : PinInput := ⟨true, !bit, true, 0⟩

/-- A clock-low poll between bits. -/
def lowPoll : PinInput := ⟨false, false, true, 0⟩

/-- The final clock-high poll carrying the press/release flag: the sketch
reads `isKeyDown = (SP != 0)` (the wire carries the inverted Amiga
up/down bit, so SP high means key down). -/
def flagPoll (f : Bool) : PinInput := ⟨true, f, true, 0⟩

/-- The wire sequence of one key message as sampled by the `READ`/`WAIT_LO`
loop: data bits of the key code in transmitted order 6-5-4-3-2-1-0,
then the press/release flag. -/
def wireInputs (k : Nat) (f : Bool) : List PinInput :=
  [dataPoll (k.testBit 6), lowPoll, dataPoll (k.testBit 5), lowPoll,
   dataPoll (k.testBit 4), lowPoll, dataPoll (k.testBit 3), lowPoll,
   dataPoll (k.testBit 2), lowPoll, dataPoll (k.testBit 1), lowPoll,
   dataPoll (k.testBit 0), lowPoll, flagPoll f]

/-- The decoder state at the start of a byte: `READ` with
`currentKeyCode = 0` and `bitIndex = 7`, as set up by `HANDSHAKE` and the
first falling clock edge. -/
def readState : DecState :=
  ⟨KState.READ, 0, 0, 7, false, List.replicate 5 false⟩

/-- A poll with the reset line asserted (active low). -/
def resetPoll : PinInput := ⟨true, false, false, 0⟩

/-- A decoder state in which macro slot 0 is playing. -/
def playingDec : DecState :=
  ⟨KState.SYNCH_HI, 0, 0, 0, true, [true, false, false, false, false]⟩

/-! ## Concrete dispatch states and predicates used by the claims -/

/-- The dispatch state after `setup()`: zeroed reports (the
previous-report snapshots are forced on the first send anyway, so they
are taken equal here), no recording, no macros playing. -/
def zeroSys : SysState where
  keyReport := zeroKeyReport
  prevkeyReport := zeroKeyReport
  macroKeyReport := zeroKeyReport
  macroPrevkeyReport := zeroKeyReport
  mmKeys := 0
  functionMode := false
  ignoreNextRelease := 0
  recording := false
  recordingSlot := false
  macro_looping := false
  robotMacroMode := false
  recordingMacroSlot := 0
  recordingMacroIndex := 0
  macros := zeroMacros
  macroPlayStatus := List.replicate 5 clearedPlayStatus
  eeprom := []
  now := 0

/-- A state in which the concurrency cap is reached (slots 0 and 1 are
playing) and the macro virtual keyboard is holding HID key 0x04. -/
def twoPlayingSys : SysState :=
  { zeroSys with
      macroPlayStatus := [⟨true, false, 0, 0⟩, ⟨true, false, 0, 0⟩,
        clearedPlayStatus, clearedPlayStatus, clearedPlayStatus]
      macroKeyReport := ⟨0, [4, 0, 0, 0, 0, 0]⟩
      macroPrevkeyReport := ⟨0, [4, 0, 0, 0, 0, 0]⟩ }

/-- A state in which the left-Shift modifier bit (0x02) is already held
in the live report. -/
def shiftHeldSys : SysState :=
  { zeroSys with keyReport := ⟨0x02, List.replicate 6 0⟩ }

/-- `k`'s HID code is already active in the report: its modifier bit is
set, or a key slot already holds its (non-zero) HID code. -/
def hidActive (r : KeyReport) (keyCode : Nat) : Prop :=
  if isAmigaModifierKey keyCode then
    r.modifiers &&& keyTable.getD keyCode 0 ≠ 0
  else
    keyTable.getD keyCode 0 ≠ 0 ∧ keyTable.getD keyCode 0 ∈ r.keys

instance (r : KeyReport) (keyCode : Nat) : Decidable (hidActive r keyCode) := by
  unfold hidActive
  split <;> infer_instance

/-- No non-zero HID code occupies more than one of the key slots
(stated over the slot contents so that it is decidable). -/
def noDupKeys (l : List Nat) : Prop := ∀ v ∈ l, v ≠ 0 → l.count v ≤ 1

instance (l : List Nat) : Decidable (noDupKeys l) := by
  unfold noDupKeys
  infer_instance

/-- The key codes the function-layer switch of `handleFunctionModeKey`
maps to actions (lines 2452-2516). -/
def functionLayerCodes : List Nat :=
  [0x50, 0x51, 0x5D, 0x0F, 0x52, 0x53, 0x54, 0x41, 0x46, 0x13,
   0x55, 0x56, 0x57, 0x58, 0x59, 0x4C, 0x4D, 0x4E, 0x4F, 0x44, 0x40, 0x37]

/-! ## Serialization lemmas -/

theorem length_serializeEvent (e : MacroKeyEvent) :
    (serializeEvent e).length = 6 := by
  simp [serializeEvent, encode4]

theorem map_length_serializeEvent (evs : List MacroKeyEvent) :
    (evs.map serializeEvent).map List.length = List.replicate evs.length 6 := by
  induction evs with
  | nil => simp
  | cons e t ih => simp [length_serializeEvent, ih, List.replicate_succ]

theorem length_flatten_events (evs : List MacroKeyEvent) :
    ((evs.map serializeEvent).flatten).length = 6 * evs.length := by
  rw [List.length_flatten, map_length_serializeEvent]
  simp [List.sum_replicate, Nat.mul_comm]

theorem length_serializeMacro (m : Macro) (h : WFMacro m) :
    (serializeMacro m).length = 193 := by
  obtain ⟨hlen, -, -⟩ := h
  simp only [serializeMacro, List.length_append, List.length_cons,
    List.length_nil]
  rw [length_flatten_events, hlen]
  decide

theorem length_serializeMacros (ms : Macros) (h : WFMacros ms) :
    (serializeMacros ms).length = 965 := by
  obtain ⟨hlen, hall⟩ := h
  have key : ∀ l : Macros, (∀ m ∈ l, WFMacro m) →
      ((l.map serializeMacro).flatten).length = 193 * l.length := by
    intro l hl
    induction l with
    | nil => simp
    | cons m t ih =>
      simp only [List.map_cons, List.flatten_cons, List.length_append,
        List.length_cons]
      rw [length_serializeMacro m (hl m (by simp)),
        ih (fun x hx => hl x (by simp [hx]))]
      ring
  rw [serializeMacros, key ms hall, hlen]
  decide

theorem parseEvent_serializeEvent (e : MacroKeyEvent) (h : WFEvent e)
    (rest : List Nat) :
    parseEvent ((serializeEvent e ++ rest).take 6) = e := by
  obtain ⟨-, -, hd⟩ := h
  cases e with
  | mk k p d =>
    have hred : parseEvent ((serializeEvent (MacroKeyEvent.mk k p d) ++ rest).take 6) =
        MacroKeyEvent.mk k p (d % 256 + 256 * (d / 256 % 256) +
          65536 * (d / 65536 % 256) + 16777216 * (d / 16777216 % 256)) := rfl
    rw [hred]
    simp only [MacroKeyEvent.mk.injEq, true_and]
    simp only [WFEvent] at hd
    omega

theorem parseEvents_serialize (evs : List MacroKeyEvent)
    (h : ∀ e ∈ evs, WFEvent e) (rest : List Nat) :
    parseEvents evs.length ((evs.map serializeEvent).flatten ++ rest) = evs := by
  induction evs with
  | nil => simp [parseEvents]
  | cons e t ih =>
    have he : WFEvent e := h e (by simp)
    have hrec := ih (fun x hx => h x (by simp [hx]))
    simp only [List.map_cons, List.flatten_cons, List.length_cons, parseEvents,
      List.append_assoc]
    refine congrArg₂ List.cons (parseEvent_serializeEvent e he _) ?_
    have hdrop : (serializeEvent e ++ ((t.map serializeEvent).flatten ++ rest)).drop 6 =
        (t.map serializeEvent).flatten ++ rest := by
      have h6 : (serializeEvent e).length = 6 := length_serializeEvent e
      calc (serializeEvent e ++ ((t.map serializeEvent).flatten ++ rest)).drop 6
          = (serializeEvent e ++ ((t.map serializeEvent).flatten ++ rest)).drop
              (serializeEvent e).length := by rw [h6]
        _ = (t.map serializeEvent).flatten ++ rest := List.drop_left _ _
    rw [hdrop, hrec]

theorem parseMacro_serializeMacro (m : Macro) (h : WFMacro m)
    (rest : List Nat) :
    parseMacro ((serializeMacro m ++ rest).take 193) = m := by
  obtain ⟨hlen, -, hall⟩ := h
  have hflat : ((m.keyEvents.map serializeEvent).flatten).length = 192 := by
    rw [length_flatten_events, hlen]
    decide
  cases m with
  | mk evs len =>
    simp only at hflat hall hlen
    simp only [serializeMacro, List.append_assoc]
    have htake : ((evs.map serializeEvent).flatten ++ ([len] ++ rest)).take 193 =
        (evs.map serializeEvent).flatten ++ [len] := by
      have h193 : ((evs.map serializeEvent).flatten ++ [len]).length = 193 := by
        simp [hflat]
      calc ((evs.map serializeEvent).flatten ++ ([len] ++ rest)).take 193
          = (((evs.map serializeEvent).flatten ++ [len]) ++ rest).take
              ((evs.map serializeEvent).flatten ++ [len]).length := by
            rw [h193, List.append_assoc]
        _ = (evs.map serializeEvent).flatten ++ [len] := List.take_left _ _
    rw [htake]
    simp only [parseMacro]
    refine congrArg₂ Macro.mk ?_ ?_
    · have := parseEvents_serialize evs hall [len]
      rw [hlen] at this
      simpa [MAX_MACRO_LENGTH] using this
    · rw [List.getD_append_right _ _ _ _ (by omega)]
      simp [hflat]

theorem parseMacros_serializeMacros_aux (ms : Macros)
    (h : ∀ m ∈ ms, WFMacro m) (rest : List Nat) :
    parseMacrosN ms.length ((ms.map serializeMacro).flatten ++ rest) = ms := by
  induction ms with
  | nil => simp [parseMacrosN]
  | cons m t ih =>
    have hm : WFMacro m := h m (by simp)
    simp only [List.map_cons, List.flatten_cons, List.length_cons, parseMacrosN,
      List.append_assoc]
    refine congrArg₂ List.cons (parseMacro_serializeMacro m hm _) ?_
    have hdrop : (serializeMacro m ++ ((t.map serializeMacro).flatten ++ rest)).drop 193 =
        (t.map serializeMacro).flatten ++ rest := by
      have h193 : (serializeMacro m).length = 193 := length_serializeMacro m hm
      calc (serializeMacro m ++ ((t.map serializeMacro).flatten ++ rest)).drop 193
          = (serializeMacro m ++ ((t.map serializeMacro).flatten ++ rest)).drop
              (serializeMacro m).length := by rw [h193]
        _ = _ := List.drop_left _ _
    rw [hdrop]
    exact ih (fun x hx => h x (by simp [hx]))

theorem parseMacros_serializeMacros (ms : Macros) (h : WFMacros ms) :
    parseMacros (serializeMacros ms) = ms := by
  have h5 : ms.length = 5 := h.1
  have := parseMacros_serializeMacros_aux ms h.2 []
  rw [List.append_nil, h5] at this
  show parseMacrosN 5 ((ms.map serializeMacro).flatten) = ms
  exact this

/-! ## Adler-32 bounds -/

theorem adler_fold_lt (l : List Nat) (ab : Nat × Nat)
    (h1 : ab.1 < MOD_ADLER) (h2 : ab.2 < MOD_ADLER) :
    (l.foldl adlerStep ab).1 < MOD_ADLER ∧ (l.foldl adlerStep ab).2 < MOD_ADLER := by
  induction l generalizing ab with
  | nil => exact ⟨h1, h2⟩
  | cons d t ih =>
    exact ih _ (Nat.mod_lt _ (by decide)) (Nat.mod_lt _ (by decide))

theorem adler32_lt (l : List Nat) : adler32 l < 2 ^ 32 := by
  have h := adler_fold_lt l (1, 0) (by decide) (by decide)
  have hA : (l.foldl adlerStep (1, 0)).1 < 2 ^ 32 := by
    have := h.1; unfold MOD_ADLER at this; omega
  have hB : (l.foldl adlerStep (1, 0)).2 <<< 16 < 2 ^ 32 := by
    rw [Nat.shiftLeft_eq]
    have hb := h.2; unfold MOD_ADLER at hb
    calc (l.foldl adlerStep (1, 0)).2 * 2 ^ 16 < 65521 * 2 ^ 16 :=
          (Nat.mul_lt_mul_right (by norm_num)).mpr hb
      _ < 2 ^ 32 := by norm_num
  calc adler32 l
      = (l.foldl adlerStep (1, 0)).2 <<< 16 ||| (l.foldl adlerStep (1, 0)).1 := rfl
    _ < 2 ^ 32 := Nat.or_lt_two_pow hB hA

/-! ## Claim C3: save / load round trip -/

theorem read4_encode4 (pre post : List Nat) (x : Nat) (hx : x < 2 ^ 32) :
    read4 (pre ++ encode4 x ++ post) pre.length = x := by
  have key : ∀ t, t < 4 → (pre ++ encode4 x ++ post).getD (pre.length + t) 0 =
      (encode4 x).getD t 0 := by
    intro t ht
    have e1 : pre.length + t - pre.length = t := by omega
    rw [List.append_assoc, List.getD_append_right _ _ _ _ (by omega), e1,
      List.getD_append _ _ _ t (by simp [encode4]; omega)]
  have e0 : (pre ++ encode4 x ++ post).getD pre.length 0 = x % 256 := by
    have := key 0 (by omega)
    rw [Nat.add_zero] at this
    rw [this]; rfl
  have e1 : (pre ++ encode4 x ++ post).getD (pre.length + 1) 0 = x / 256 % 256 := by
    rw [key 1 (by omega)]; rfl
  have e2 : (pre ++ encode4 x ++ post).getD (pre.length + 2) 0 = x / 65536 % 256 := by
    rw [key 2 (by omega)]; rfl
  have e3 : (pre ++ encode4 x ++ post).getD (pre.length + 3) 0 = x / 16777216 % 256 := by
    rw [key 3 (by omega)]; rfl
  simp only [read4, e0, e1, e2, e3]
  omega

/-- **C3.** For every well-formed contents of the 5-slot `macros` array
(each slot a fixed 32-event array with its `length` byte, fields in the
range of their C types), `saveMacrosToEEPROM()` followed by
`loadMacrosFromEEPROM()` returns `true` and reproduces the original macro
contents exactly — same key codes, press flags, delays and lengths in
every slot — for any prior EEPROM contents, given that the store
faithfully returns what was written and the version constant is
unchanged. -/
theorem save_load_roundtrip (eeprom : List Nat) (ms : Macros)
    (h : WFMacros ms) :
    loadMacrosFromEEPROM (saveMacrosToEEPROM eeprom ms) = (true, ms) := by
  have hguard : ¬ (sizeofMacros + 2 + 1 + 4 > SIZE_OF_EEPROM) := by decide
  have hplen : (serializeMacros ms).length = 965 := length_serializeMacros ms h
  have himg : saveMacrosToEEPROM eeprom ms =
      4 :: 197 :: 3 :: (serializeMacros ms ++
        (encode4 (adler32 (serializeMacros ms)) ++ eeprom.drop 972)) := by
    simp only [saveMacrosToEEPROM, if_neg hguard]
    simp [encode2, sizeofMacros, MACRO_SAVE_VERSION]
  rw [himg]
  set X := serializeMacros ms ++
    (encode4 (adler32 (serializeMacros ms)) ++ eeprom.drop 972) with hX
  have htake : X.take 965 = serializeMacros ms := by
    rw [hX]
    calc (serializeMacros ms ++ _).take 965
        = (serializeMacros ms ++ _).take (serializeMacros ms).length := by rw [hplen]
      _ = serializeMacros ms := List.take_left _ _
  have hread : read4 (4 :: 197 :: 3 :: X) 968 = adler32 (serializeMacros ms) := by
    have hsplit : 4 :: 197 :: 3 :: X =
        (4 :: 197 :: 3 :: serializeMacros ms) ++
          encode4 (adler32 (serializeMacros ms)) ++ eeprom.drop 972 := by
      rw [hX]; simp
    have hlen968 : (4 :: 197 :: 3 :: serializeMacros ms).length = 968 := by
      simp [hplen]
    rw [hsplit, ← hlen968]
    exact read4_encode4 _ _ _ (adler32_lt _)
  have g0 : (4 :: 197 :: 3 :: X).getD 0 0 = 4 := rfl
  have g1 : (4 :: 197 :: 3 :: X).getD 1 0 = 197 := rfl
  have g2 : (4 :: 197 :: 3 :: X).getD 2 0 = 3 := rfl
  have gdrop : (4 :: 197 :: 3 :: X).drop 3 = X := rfl
  simp only [loadMacrosFromEEPROM, g0, g1, g2, gdrop, hread, htake,
    MACRO_SAVE_VERSION, sizeofMacros]
  norm_num
  exact parseMacros_serializeMacros ms h

/-! ## Helpers shared by the persistence claims -/

theorem length_encode4 (x : Nat) : (encode4 x).length = 4 := rfl

theorem save_eq (eeprom : List Nat) (ms : Macros) :
    saveMacrosToEEPROM eeprom ms =
      4 :: 197 :: 3 :: (serializeMacros ms ++
        (encode4 (adler32 (serializeMacros ms)) ++ eeprom.drop 972)) := by
  have hguard : ¬ (sizeofMacros + 2 + 1 + 4 > SIZE_OF_EEPROM) := by decide
  simp only [saveMacrosToEEPROM, if_neg hguard]
  simp [encode2, sizeofMacros, MACRO_SAVE_VERSION]

theorem load_header (Z : List Nat) :
    loadMacrosFromEEPROM (4 :: 197 :: 3 :: Z) =
      if read4 (4 :: 197 :: 3 :: Z) 968 ≠ adler32 (Z.take 965) then
        (false, zeroMacros)
      else
        (true, parseMacros (Z.take 965)) := by
  have g0 : (4 :: 197 :: 3 :: Z).getD 0 0 = 4 := rfl
  have g1 : (4 :: 197 :: 3 :: Z).getD 1 0 = 197 := rfl
  have g2 : (4 :: 197 :: 3 :: Z).getD 2 0 = 3 := rfl
  have gdrop : (4 :: 197 :: 3 :: Z).drop 3 = Z := rfl
  simp only [loadMacrosFromEEPROM, g0, g1, g2, gdrop, MACRO_SAVE_VERSION,
    sizeofMacros]
  norm_num

theorem read4_at (pre W : List Nat) (hpre : pre.length = 968) :
    read4 (pre ++ W) 968 = W.getD 0 0 + 256 * W.getD 1 0 +
      65536 * W.getD 2 0 + 16777216 * W.getD 3 0 := by
  have key : ∀ t : Nat, (pre ++ W).getD (968 + t) 0 = W.getD t 0 := by
    intro t
    rw [List.getD_append_right _ _ _ _ (by omega)]
    congr 1
    omega
  have k0 := key 0
  rw [Nat.add_zero] at k0
  simp only [read4, k0, key 1, key 2, key 3]

/-! ## Adler-32 detects a single changed byte -/

theorem adler_fold_fst (l : List Nat) (ab : Nat × Nat) :
    (l.foldl adlerStep ab).1 =
      l.foldl (fun a d => (a + d) % MOD_ADLER) ab.1 := by
  induction l generalizing ab with
  | nil => rfl
  | cons d t ih => exact ih _

theorem adler_foldA_eq_sum (l : List Nat) (a : Nat) (ha : a < MOD_ADLER) :
    l.foldl (fun a d => (a + d) % MOD_ADLER) a = (a + l.sum) % MOD_ADLER := by
  induction l generalizing a with
  | nil => simp [Nat.mod_eq_of_lt ha]
  | cons d t ih =>
    simp only [List.foldl_cons, List.sum_cons]
    rw [ih _ (Nat.mod_lt _ (by decide)), Nat.mod_add_mod, Nat.add_assoc]

theorem sum_set_getD (l : List Nat) (j b : Nat) (hj : j < l.length) :
    (l.set j b).sum + l.getD j 0 = l.sum + b := by
  induction l generalizing j with
  | nil => simp at hj
  | cons x t ih =>
    cases j with
    | zero => simp [List.set_cons_zero]; omega
    | succ n =>
      simp only [List.set_cons_succ, List.sum_cons, List.getD_cons_succ]
      have := ih n (by simpa using hj)
      omega

theorem lor_shift_inj (B1 B2 A1 A2 : Nat) (h1 : A1 < 2 ^ 16) (h2 : A2 < 2 ^ 16)
    (hne : A1 ≠ A2) : (B1 <<< 16) ||| A1 ≠ (B2 <<< 16) ||| A2 := by
  intro heq
  apply hne
  apply Nat.eq_of_testBit_eq
  intro i
  by_cases hi : i < 16
  · have h3 := congrArg (fun n => n.testBit i) heq
    simp only [Nat.testBit_lor, Nat.testBit_shiftLeft] at h3
    have hlt : ¬ (i ≥ 16) := by omega
    simpa [hlt] using h3
  · have e1 : A1.testBit i = false :=
      Nat.testBit_lt_two_pow
        (lt_of_lt_of_le h1 (Nat.pow_le_pow_right (by norm_num) (by omega)))
    have e2 : A2.testBit i = false :=
      Nat.testBit_lt_two_pow
        (lt_of_lt_of_le h2 (Nat.pow_le_pow_right (by norm_num) (by omega)))
    rw [e1, e2]

theorem adler32_ne_of_fst_ne (l1 l2 : List Nat)
    (h : (l1.foldl adlerStep (1, 0)).1 ≠ (l2.foldl adlerStep (1, 0)).1) :
    adler32 l1 ≠ adler32 l2 := by
  have b1 := adler_fold_lt l1 (1, 0) (by decide) (by decide)
  have b2 := adler_fold_lt l2 (1, 0) (by decide) (by decide)
  have m16 : MOD_ADLER < 2 ^ 16 := by decide
  exact lor_shift_inj _ _ _ _ (lt_trans b1.1 m16) (lt_trans b2.1 m16) h

theorem adler32_set_ne (l : List Nat) (j b : Nat) (hj : j < l.length)
    (hx : l.getD j 0 < MOD_ADLER) (hb : b < MOD_ADLER)
    (hne : b ≠ l.getD j 0) :
    adler32 (l.set j b) ≠ adler32 l := by
  apply adler32_ne_of_fst_ne
  rw [adler_fold_fst, adler_fold_fst, adler_foldA_eq_sum _ _ (by decide),
    adler_foldA_eq_sum _ _ (by decide)]
  have hsum := sum_set_getD l j b hj
  unfold MOD_ADLER at hx hb ⊢
  omega

/-! ## Serialized bytes are bytes -/

theorem serializeEvent_bytes_lt (e : MacroKeyEvent) (h : WFEvent e) :
    ∀ b ∈ serializeEvent e, b < 256 := by
  obtain ⟨h1, h2, -⟩ := h
  intro b hb
  simp only [serializeEvent, encode4, List.cons_append, List.nil_append,
    List.mem_cons, List.not_mem_nil, or_false] at hb
  rcases hb with rfl | rfl | rfl | rfl | rfl | rfl <;> omega

theorem serializeMacro_bytes_lt (m : Macro) (h : WFMacro m) :
    ∀ b ∈ serializeMacro m, b < 256 := by
  obtain ⟨-, hlenb, hall⟩ := h
  intro b hb
  simp only [serializeMacro, List.mem_append, List.mem_flatten,
    List.mem_map, List.mem_singleton] at hb
  rcases hb with ⟨l, ⟨e, he, rfl⟩, hbl⟩ | rfl
  · exact serializeEvent_bytes_lt e (hall e he) b hbl
  · exact hlenb

theorem serializeMacros_bytes_lt (ms : Macros) (h : WFMacros ms) :
    ∀ b ∈ serializeMacros ms, b < 256 := by
  intro b hb
  simp only [serializeMacros, List.mem_flatten, List.mem_map] at hb
  rcases hb with ⟨l, ⟨m, hm, rfl⟩, hbl⟩
  exact serializeMacro_bytes_lt m (h.2 m hm) b hbl

theorem getD_lt_of_all (l : List Nat) (hall : ∀ b ∈ l, b < 256)
    (j : Nat) (hj : j < l.length) : l.getD j 0 < 256 := by
  rw [List.getD_eq_getElem l 0 hj]
  exact hall _ (List.getElem_mem hj)

/-- **C4.** For every stored byte sequence: if the stored version tag
differs from `MACRO_SAVE_VERSION`, or the stored size field differs from
the in-memory `sizeof(macros)`, or the Adler-32 checksum recomputed over
the loaded macro bytes differs from the stored checksum, then
`loadMacrosFromEEPROM()` returns `false` and leaves every in-memory macro
slot cleared to all zero bytes — never partially-applied data.  In
particular, any single-byte corruption of the 972-byte serialized region
written by `saveMacrosToEEPROM()` makes the load fail and clear this
way. -/
theorem load_rejects_and_clears :
    (∀ bs : List Nat,
      (bs.getD 0 0 ≠ MACRO_SAVE_VERSION ∨
       bs.getD 1 0 + 256 * bs.getD 2 0 ≠ sizeofMacros ∨
       read4 bs 968 ≠ adler32 ((bs.drop 3).take sizeofMacros)) →
      loadMacrosFromEEPROM bs = (false, zeroMacros)) ∧
    (∀ (eeprom : List Nat) (ms : Macros), WFMacros ms →
      ∀ i b, i < 972 → b < 256 →
      b ≠ (saveMacrosToEEPROM eeprom ms).getD i 0 →
      loadMacrosFromEEPROM ((saveMacrosToEEPROM eeprom ms).set i b) =
        (false, zeroMacros)) := by
  constructor
  · intro bs hcond
    by_cases h1 : bs.getD 0 0 ≠ MACRO_SAVE_VERSION
    · simp only [loadMacrosFromEEPROM, if_pos h1]
    · by_cases h2 : bs.getD 1 0 + 256 * bs.getD 2 0 ≠ sizeofMacros
      · simp only [loadMacrosFromEEPROM, if_neg h1, if_pos h2]
      · have h3 : read4 bs 968 ≠ adler32 ((bs.drop 3).take sizeofMacros) := by
          tauto
        simp only [loadMacrosFromEEPROM, if_neg h1, if_neg h2, if_pos h3]
  · intro eeprom ms h i b hi hb256 hbne
    rw [save_eq] at hbne ⊢
    set P := serializeMacros ms with hP
    set c := adler32 P with hcdef
    set T := eeprom.drop 972 with hT
    have hplen : P.length = 965 := by
      rw [hP]; exact length_serializeMacros ms h
    have hbytes : ∀ x ∈ P, x < 256 := by
      rw [hP]; exact serializeMacros_bytes_lt ms h
    have hclt : c < 2 ^ 32 := by rw [hcdef]; exact adler32_lt P
    rcases Nat.lt_or_ge i 3 with h3 | h3
    · interval_cases i
      · -- version byte corrupted
        have hg : (4 :: 197 :: 3 :: (P ++ (encode4 c ++ T))).getD 0 0 = 4 := rfl
        rw [hg] at hbne
        have hset : (4 :: 197 :: 3 :: (P ++ (encode4 c ++ T))).set 0 b =
            b :: 197 :: 3 :: (P ++ (encode4 c ++ T)) := rfl
        have g0 : (b :: 197 :: 3 :: (P ++ (encode4 c ++ T))).getD 0 0 = b := rfl
        rw [hset]
        simp only [loadMacrosFromEEPROM, g0, MACRO_SAVE_VERSION]
        rw [if_pos hbne]
      · -- low size byte corrupted
        have hg : (4 :: 197 :: 3 :: (P ++ (encode4 c ++ T))).getD 1 0 = 197 := rfl
        rw [hg] at hbne
        have hset : (4 :: 197 :: 3 :: (P ++ (encode4 c ++ T))).set 1 b =
            4 :: b :: 3 :: (P ++ (encode4 c ++ T)) := rfl
        have g0 : (4 :: b :: 3 :: (P ++ (encode4 c ++ T))).getD 0 0 = 4 := rfl
        have g1 : (4 :: b :: 3 :: (P ++ (encode4 c ++ T))).getD 1 0 = b := rfl
        have g2 : (4 :: b :: 3 :: (P ++ (encode4 c ++ T))).getD 2 0 = 3 := rfl
        rw [hset]
        simp only [loadMacrosFromEEPROM, g0, g1, g2, MACRO_SAVE_VERSION,
          sizeofMacros]
        rw [if_neg (by norm_num), if_pos (by omega)]
      · -- high size byte corrupted
        have hg : (4 :: 197 :: 3 :: (P ++ (encode4 c ++ T))).getD 2 0 = 3 := rfl
        rw [hg] at hbne
        have hset : (4 :: 197 :: 3 :: (P ++ (encode4 c ++ T))).set 2 b =
            4 :: 197 :: b :: (P ++ (encode4 c ++ T)) := rfl
        have g0 : (4 :: 197 :: b :: (P ++ (encode4 c ++ T))).getD 0 0 = 4 := rfl
        have g1 : (4 :: 197 :: b :: (P ++ (encode4 c ++ T))).getD 1 0 = 197 := rfl
        have g2 : (4 :: 197 :: b :: (P ++ (encode4 c ++ T))).getD 2 0 = b := rfl
        rw [hset]
        simp only [loadMacrosFromEEPROM, g0, g1, g2, MACRO_SAVE_VERSION,
          sizeofMacros]
        rw [if_neg (by norm_num), if_pos (by omega)]
    · obtain ⟨j, rfl⟩ : ∃ j, i = j + 3 := ⟨i - 3, by omega⟩
      have hgetD : (4 :: 197 :: 3 :: (P ++ (encode4 c ++ T))).getD (j + 3) 0 =
          (P ++ (encode4 c ++ T)).getD j 0 := rfl
      have hset : (4 :: 197 :: 3 :: (P ++ (encode4 c ++ T))).set (j + 3) b =
          4 :: 197 :: 3 :: (P ++ (encode4 c ++ T)).set j b := rfl
      rw [hgetD] at hbne
      rw [hset]
      rcases Nat.lt_or_ge j 965 with hj | hj
      · -- payload byte corrupted: the recomputed checksum changes
        have hsplit : (P ++ (encode4 c ++ T)).set j b =
            P.set j b ++ (encode4 c ++ T) :=
          List.set_append_left j b (by omega)
        rw [hsplit, load_header]
        have hlen' : (P.set j b).length = 965 := by
          rw [List.length_set, hplen]
        have htake : (P.set j b ++ (encode4 c ++ T)).take 965 = P.set j b := by
          rw [← hlen', List.take_left]
        have hassoc : (4 : Nat) :: 197 :: 3 :: (P.set j b ++ (encode4 c ++ T)) =
            (4 :: 197 :: 3 :: P.set j b) ++ (encode4 c ++ T) := by simp
        have hread : read4 (4 :: 197 :: 3 :: (P.set j b ++ (encode4 c ++ T))) 968 = c := by
          rw [hassoc, read4_at _ _ (by simp [hlen'])]
          have e0 : (encode4 c ++ T).getD 0 0 = c % 256 := rfl
          have e1 : (encode4 c ++ T).getD 1 0 = c / 256 % 256 := rfl
          have e2 : (encode4 c ++ T).getD 2 0 = c / 65536 % 256 := rfl
          have e3 : (encode4 c ++ T).getD 3 0 = c / 16777216 % 256 := rfl
          rw [e0, e1, e2, e3]
          omega
        rw [htake, hread]
        have hbnP : b ≠ P.getD j 0 := by
          rw [List.getD_append _ _ _ _ (by omega)] at hbne; exact hbne
        have hxlt : P.getD j 0 < 256 := getD_lt_of_all P hbytes j (by omega)
        have hne : c ≠ adler32 (P.set j b) := by
          have hgoal := adler32_set_ne P j b (by omega)
            (by unfold MOD_ADLER; omega) (by unfold MOD_ADLER; omega) hbnP
          rw [hcdef]
          exact hgoal.symm
        rw [if_pos hne]
      · -- stored checksum byte corrupted
        have hj969 : j < 969 := by omega
        have hrw : ∀ W : List Nat,
            loadMacrosFromEEPROM (4 :: 197 :: 3 :: (P ++ W)) =
              if read4 ((4 :: 197 :: 3 :: P) ++ W) 968 ≠ adler32 P then
                (false, zeroMacros)
              else (true, parseMacros P) := by
          intro W
          rw [load_header]
          have htk : (P ++ W).take 965 = P := by rw [← hplen, List.take_left]
          have hpw : (4 : Nat) :: 197 :: 3 :: (P ++ W) =
              (4 :: 197 :: 3 :: P) ++ W := by simp
          rw [htk, hpw]
        interval_cases j
        · -- byte 968 : checksum byte 0
          have hx : (P ++ (encode4 c ++ T)).getD 965 0 = c % 256 := by
            rw [List.getD_append_right _ _ _ _ (by omega), hplen]; rfl
          rw [hx] at hbne
          have hsplit : (P ++ (encode4 c ++ T)).set 965 b =
              P ++ (b :: c / 256 % 256 :: c / 65536 % 256 :: c / 16777216 % 256 :: T) := by
            rw [List.set_append_right _ b (by omega), hplen]
            rfl
          rw [hsplit, hrw]
          rw [read4_at _ _ (by simp [hplen])]
          have hv : (b :: c / 256 % 256 :: c / 65536 % 256 :: c / 16777216 % 256 :: T).getD 0 0 +
              256 * (b :: c / 256 % 256 :: c / 65536 % 256 :: c / 16777216 % 256 :: T).getD 1 0 +
              65536 * (b :: c / 256 % 256 :: c / 65536 % 256 :: c / 16777216 % 256 :: T).getD 2 0 +
              16777216 * (b :: c / 256 % 256 :: c / 65536 % 256 :: c / 16777216 % 256 :: T).getD 3 0 =
              b + 256 * (c / 256 % 256) + 65536 * (c / 65536 % 256) +
                16777216 * (c / 16777216 % 256) := rfl
          rw [hv, ← hcdef]
          rw [if_pos (by omega)]
        · -- byte 969 : checksum byte 1
          have hx : (P ++ (encode4 c ++ T)).getD 966 0 = c / 256 % 256 := by
            rw [List.getD_append_right _ _ _ _ (by omega), hplen]; rfl
          rw [hx] at hbne
          have hsplit : (P ++ (encode4 c ++ T)).set 966 b =
              P ++ (c % 256 :: b :: c / 65536 % 256 :: c / 16777216 % 256 :: T) := by
            rw [List.set_append_right _ b (by omega), hplen]
            rfl
          rw [hsplit, hrw]
          rw [read4_at _ _ (by simp [hplen])]
          have hv : (c % 256 :: b :: c / 65536 % 256 :: c / 16777216 % 256 :: T).getD 0 0 +
              256 * (c % 256 :: b :: c / 65536 % 256 :: c / 16777216 % 256 :: T).getD 1 0 +
              65536 * (c % 256 :: b :: c / 65536 % 256 :: c / 16777216 % 256 :: T).getD 2 0 +
              16777216 * (c % 256 :: b :: c / 65536 % 256 :: c / 16777216 % 256 :: T).getD 3 0 =
              c % 256 + 256 * b + 65536 * (c / 65536 % 256) +
                16777216 * (c / 16777216 % 256) := rfl
          rw [hv, ← hcdef]
          rw [if_pos (by omega)]
        · -- byte 970 : checksum byte 2
          have hx : (P ++ (encode4 c ++ T)).getD 967 0 = c / 65536 % 256 := by
            rw [List.getD_append_right _ _ _ _ (by omega), hplen]; rfl
          rw [hx] at hbne
          have hsplit : (P ++ (encode4 c ++ T)).set 967 b =
              P ++ (c % 256 :: c / 256 % 256 :: b :: c / 16777216 % 256 :: T) := by
            rw [List.set_append_right _ b (by omega), hplen]
            rfl
          rw [hsplit, hrw]
          rw [read4_at _ _ (by simp [hplen])]
          have hv : (c % 256 :: c / 256 % 256 :: b :: c / 16777216 % 256 :: T).getD 0 0 +
              256 * (c % 256 :: c / 256 % 256 :: b :: c / 16777216 % 256 :: T).getD 1 0 +
              65536 * (c % 256 :: c / 256 % 256 :: b :: c / 16777216 % 256 :: T).getD 2 0 +
              16777216 * (c % 256 :: c / 256 % 256 :: b :: c / 16777216 % 256 :: T).getD 3 0 =
              c % 256 + 256 * (c / 256 % 256) + 65536 * b +
                16777216 * (c / 16777216 % 256) := rfl
          rw [hv, ← hcdef]
          rw [if_pos (by omega)]
        · -- byte 971 : checksum byte 3
          have hx : (P ++ (encode4 c ++ T)).getD 968 0 = c / 16777216 % 256 := by
            rw [List.getD_append_right _ _ _ _ (by omega), hplen]; rfl
          rw [hx] at hbne
          have hsplit : (P ++ (encode4 c ++ T)).set 968 b =
              P ++ (c % 256 :: c / 256 % 256 :: c / 65536 % 256 :: b :: T) := by
            rw [List.set_append_right _ b (by omega), hplen]
            rfl
          rw [hsplit, hrw]
          rw [read4_at _ _ (by simp [hplen])]
          have hv : (c % 256 :: c / 256 % 256 :: c / 65536 % 256 :: b :: T).getD 0 0 +
              256 * (c % 256 :: c / 256 % 256 :: c / 65536 % 256 :: b :: T).getD 1 0 +
              65536 * (c % 256 :: c / 256 % 256 :: c / 65536 % 256 :: b :: T).getD 2 0 +
              16777216 * (c % 256 :: c / 256 % 256 :: c / 65536 % 256 :: b :: T).getD 3 0 =
              c % 256 + 256 * (c / 256 % 256) + 65536 * (c / 65536 % 256) +
                16777216 * b := rfl
          rw [hv, ← hcdef]
          rw [if_pos (by omega)]

theorem save_load_roundtrip_witness :
    WFMacros wMacros ∧
      loadMacrosFromEEPROM (saveMacrosToEEPROM [] wMacros) = (true, wMacros) :=
  ⟨by decide, save_load_roundtrip [] wMacros (by decide)⟩

theorem load_rejects_and_clears_witness :
    loadMacrosFromEEPROM [] = (false, zeroMacros) ∧
      loadMacrosFromEEPROM ((saveMacrosToEEPROM [] wMacros).set 10 9) =
        (false, zeroMacros) :=
  ⟨load_rejects_and_clears.1 [] (Or.inl (by decide)),
   load_rejects_and_clears.2 [] wMacros (by decide) 10 9 (by decide) (by decide)
     (by decide)⟩

/-! ## Claim C2: out-of-range key codes are dropped before any lookup -/

/-- **C2.** For every key code `k ≥ AMIGA_KEY_COUNT` (0x68),
`processKeyCode(k, isPressed)` returns immediately: the whole system
state — HID reports, macro state, EEPROM — is unchanged, and in
particular `keyTable` is never indexed (the range guard is the first
statement of the function, before any lookup or dispatch). -/
theorem processKeyCode_out_of_range (keyCode : Nat) (isPressed : Bool)
    (s : SysState) (h : AMIGA_KEY_COUNT ≤ keyCode) :
    processKeyCode keyCode isPressed s = s := by
  have hn : ¬ (keyCode < AMIGA_KEY_COUNT) := by omega
  simp only [processKeyCode, if_pos hn]

theorem processKeyCode_out_of_range_witness :
    processKeyCode 0x68 true zeroSys = zeroSys :=
  processKeyCode_out_of_range 0x68 true zeroSys (by decide)

/-! ## Claim C10: macro slot derivation is always in bounds -/

/-- **C10.** For every `uint8_t` key code input — not only the F6..F10
range — `macroSlotFromKeyCode` returns a value strictly below
`MACRO_SLOTS` (5): for inputs below `AMIGA_KEY_F6` the unsigned
subtraction wraps around and the result is then clamped to the last
slot, so every `macros[]` / `macroPlayStatus[]` index derived from it is
in bounds. -/
theorem macroSlotFromKeyCode_lt (keyCode : Nat) :
    macroSlotFromKeyCode keyCode < MACRO_SLOTS := by
  show (if (keyCode + 256 - 85) % 256 ≥ 5 then 5 - 1
    else (keyCode + 256 - 85) % 256) < 5
  split <;> omega

/-! ## Claim C1: the decoder reconstructs the key code and flag -/

set_option maxRecDepth 40000 in
/-- **C1.** For every 7-data-bit key code `k` (the eighth sampled bit is
the flag) and every press/release flag `f`: starting in `READ` with
`bitIndex = 7` and a zero accumulator, sampling the wire sequence that
carries bits 6,5,4,3,2,1,0 of `k` (data line inverted) and then the flag,
the decoder accumulates exactly `k` into `currentKeyCode`, treats the
eighth sample as the press/release flag rather than a ninth data bit,
emits exactly one key event carrying `(k, f)`, and returns to
`HANDSHAKE`. -/
theorem decoder_reconstructs (k : Nat) (hk : k < 128) (f : Bool) :
    decRun readState (wireInputs k f) =
      (⟨KState.HANDSHAKE, 0, k, 255, false, List.replicate 5 false⟩,
        [Emit.keyEv k f]) := by
  have H : ∀ k' < 128, ∀ f' : Bool,
      decRun readState (wireInputs k' f') =
        (⟨KState.HANDSHAKE, 0, k', 255, false, List.replicate 5 false⟩,
          [Emit.keyEv k' f']) := by decide
  exact H k hk f

theorem decoder_reconstructs_witness :
    decRun readState (wireInputs 0x20 true) =
      (⟨KState.HANDSHAKE, 0, 0x20, 255, false, List.replicate 5 false⟩,
        [Emit.keyEv 0x20 true]) :=
  decoder_reconstructs 0x20 (by decide) true

/-! ## Claim C9: reset handling -/

/-- **C9 (counterexample).** Polling `handleKeyboard` with the reset line
asserted while macro slot 0 is playing: the decoder does transition to
`WAIT_RES` in that same poll and emits the Ctrl+Alt+Del chord, but slot
0's playing flag is still `true` afterwards — the reset branch never
touches the macro engine, contradicting the claim that every slot's
playing flag becomes `false`. -/
theorem reset_does_not_stop_macros :
    (handleKeyboardStep resetPoll playingDec).1.kstate = KState.WAIT_RES ∧
      (handleKeyboardStep resetPoll playingDec).2 =
        [Emit.keystrokeEv 0x4C 0x05] ∧
      (handleKeyboardStep resetPoll playingDec).1.macroPlaying =
        [true, false, false, false, false] := by decide

/-- **C9 (amended).** For every decoder state other than `WAIT_RES`, if
the reset line reads asserted at a poll, the decoder in that same poll
transitions to `WAIT_RES`, emits the fixed reset chord
`keystroke(0x4C, 0x05)` (Ctrl+Alt+Delete) and clears function mode; the
macro playing flags are left untouched (no macro playback is stopped).
Once the reset line deasserts, the decoder returns to `SYNCH_HI`. -/
theorem reset_poll_behavior (inp : PinInput) (s : DecState)
    (hres : inp.resHigh = false) (hs : s.kstate ≠ KState.WAIT_RES) :
    handleKeyboardStep inp s =
      ({ s with functionMode := false, kstate := KState.WAIT_RES },
        [Emit.keystrokeEv 0x4C 0x05]) ∧
    (handleKeyboardStep inp s).1.macroPlaying = s.macroPlaying ∧
    (∀ t : PinInput, t.resHigh = true →
      handleKeyboardStep t { s with kstate := KState.WAIT_RES } =
        ({ s with kstate := KState.SYNCH_HI }, [])) := by
  have h1 : handleKeyboardStep inp s =
      ({ s with functionMode := false, kstate := KState.WAIT_RES },
        [Emit.keystrokeEv 0x4C 0x05]) := by
    unfold handleKeyboardStep
    rw [if_pos ⟨hres, hs⟩]
  refine ⟨h1, by rw [h1], ?_⟩
  intro t ht
  unfold handleKeyboardStep
  rw [if_neg (by simp [ht]), if_pos rfl, if_pos ht]

theorem reset_poll_behavior_witness :
    handleKeyboardStep resetPoll playingDec =
      ({ playingDec with functionMode := false, kstate := KState.WAIT_RES },
        [Emit.keystrokeEv 0x4C 0x05]) ∧
    (handleKeyboardStep resetPoll playingDec).1.macroPlaying =
      playingDec.macroPlaying ∧
    (∀ t : PinInput, t.resHigh = true →
      handleKeyboardStep t { playingDec with kstate := KState.WAIT_RES } =
        ({ playingDec with kstate := KState.SYNCH_HI }, [])) :=
  reset_poll_behavior resetPoll playingDec (by decide) (by decide)

/-! ## Dispatch-layer field lemmas -/

@[simp]
theorem sendReport_keyReport (s : SysState) :
    (sendReport s).keyReport = s.keyReport := by
  unfold sendReport; split <;> rfl

@[simp]
theorem stopRecording_keyReport (s : SysState) :
    (stopRecording s).keyReport = s.keyReport := by
  simp only [stopRecording]
  split <;> rfl

@[simp]
theorem record_key_keyReport (k : Nat) (p : Bool) (s : SysState) :
    (record_key k p s).keyReport = s.keyReport := by
  simp only [record_key]
  split
  · split
    · rw [stopRecording_keyReport]
    · rfl
  · rfl

/-- `keyPress` acts on the live report exactly as lines 2540-2554. -/
theorem keyPress_keyReport (k : Nat) (s : SysState) :
    (keyPress k s).keyReport =
      if isAmigaModifierKey k then
        ⟨s.keyReport.modifiers ||| keyTable.getD k 0, s.keyReport.keys⟩
      else
        ⟨s.keyReport.modifiers,
          replaceFirstZero s.keyReport.keys (keyTable.getD k 0)⟩ := by
  cases hc : isAmigaModifierKey k <;> simp [keyPress, hc]

/-- `keyRelease` acts on the live report exactly as lines 2562-2575. -/
theorem keyRelease_keyReport (k : Nat) (s : SysState) :
    (keyRelease k s).keyReport =
      if isAmigaModifierKey k then
        ⟨s.keyReport.modifiers &&& (255 ^^^ keyTable.getD k 0),
          s.keyReport.keys⟩
      else
        ⟨s.keyReport.modifiers,
          clearMatching s.keyReport.keys (keyTable.getD k 0)⟩ := by
  cases hc : isAmigaModifierKey k <;> simp [keyRelease, hc]

theorem keyTable_getD_lt (k : Nat) : keyTable.getD k 0 < 256 := by
  by_cases h : k < keyTable.length
  · exact getD_lt_of_all keyTable (by decide) k h
  · rw [List.getD_eq_default _ _ (by omega)]
    norm_num

/-! ## Byte-mask lemmas for the modifier bit operations -/

theorem lor_mask_restore (m h : Nat) (hm : m < 256) (hh : h < 256)
    (hz : m &&& h = 0) : (m ||| h) &&& (255 ^^^ h) = m := by
  apply Nat.eq_of_testBit_eq
  intro i
  by_cases hi : i < 8
  · simp only [Nat.testBit_land, Nat.testBit_lor, Nat.testBit_xor]
    have h255 : (255 : Nat).testBit i = true := by
      have he : (255 : Nat) = 2 ^ 8 - 1 := by norm_num
      rw [he, Nat.testBit_two_pow_sub_one]
      simpa using hi
    have hmh : ¬ (m.testBit i = true ∧ h.testBit i = true) := by
      rintro ⟨hm1, hh1⟩
      have hch := congrArg (fun n => n.testBit i) hz
      simp [Nat.testBit_land, hm1, hh1] at hch
    rw [h255]
    cases hm1 : m.testBit i <;> cases hh1 : h.testBit i <;> simp_all
  · have h2b : (256 : Nat) ≤ 2 ^ i := by
      calc (256 : Nat) = 2 ^ 8 := by norm_num
        _ ≤ 2 ^ i := Nat.pow_le_pow_right (by norm_num) (by omega)
    have em : m.testBit i = false :=
      Nat.testBit_lt_two_pow (lt_of_lt_of_le hm h2b)
    have eh : h.testBit i = false :=
      Nat.testBit_lt_two_pow (lt_of_lt_of_le hh h2b)
    have e255 : (255 : Nat).testBit i = false :=
      Nat.testBit_lt_two_pow (lt_of_lt_of_le (by norm_num) h2b)
    simp [Nat.testBit_land, Nat.testBit_lor, Nat.testBit_xor, em, eh, e255]

theorem land_mask_testBit (m h b : Nat) (hm : m < 256)
    (hb : h.testBit b = false) :
    (m &&& (255 ^^^ h)).testBit b = m.testBit b := by
  by_cases hb8 : b < 8
  · rw [Nat.testBit_land, Nat.testBit_xor, hb]
    have h255 : (255 : Nat).testBit b = true := by
      have he : (255 : Nat) = 2 ^ 8 - 1 := by norm_num
      rw [he, Nat.testBit_two_pow_sub_one]
      simpa using hb8
    rw [h255]
    simp
  · have h2b : (256 : Nat) ≤ 2 ^ b := by
      calc (256 : Nat) = 2 ^ 8 := by norm_num
        _ ≤ 2 ^ b := Nat.pow_le_pow_right (by norm_num) (by omega)
    have em : m.testBit b = false :=
      Nat.testBit_lt_two_pow (lt_of_lt_of_le hm h2b)
    rw [Nat.testBit_land, em]
    simp [em]

/-! ## List lemmas for the key-slot operations -/

theorem replaceFirstZero_zero (l : List Nat) : replaceFirstZero l 0 = l := by
  induction l with
  | nil => rfl
  | cons x t ih =>
    by_cases hx : x = 0
    · simp [replaceFirstZero, hx]
    · simp [replaceFirstZero, hx, ih]

theorem clearMatching_zero (l : List Nat) : clearMatching l 0 = l := by
  induction l with
  | nil => rfl
  | cons x t ih =>
    by_cases hx : x = 0
    · simp [clearMatching, hx] at ih ⊢
      exact ih
    · simp [clearMatching, hx] at ih ⊢
      exact ih

theorem clearMatching_not_mem (l : List Nat) (h : Nat) (hm : h ∉ l) :
    clearMatching l h = l := by
  induction l with
  | nil => rfl
  | cons x t ih =>
    have hx : x ≠ h := fun he => hm (by simp [he])
    have ht : h ∉ t := fun he => hm (by simp [he])
    simp [clearMatching, hx] at ih ⊢
    exact ih ht

theorem clear_replace (l : List Nat) (h : Nat) (h0 : h ≠ 0) (hm : h ∉ l) :
    clearMatching (replaceFirstZero l h) h = l := by
  induction l with
  | nil => rfl
  | cons x t ih =>
    have hx : x ≠ h := fun he => hm (by simp [he])
    have ht : h ∉ t := fun he => hm (by simp [he])
    by_cases hx0 : x = 0
    · subst hx0
      have e1 : replaceFirstZero (0 :: t) h = h :: t := by
        simp [replaceFirstZero]
      have e2 : clearMatching (h :: t) h = 0 :: clearMatching t h := by
        simp [clearMatching]
      rw [e1, e2, clearMatching_not_mem t h ht]
    · have e1 : replaceFirstZero (x :: t) h = x :: replaceFirstZero t h := by
        simp [replaceFirstZero, hx0]
      have e2 : clearMatching (x :: replaceFirstZero t h) h =
          (if x = h then 0 else x) :: clearMatching (replaceFirstZero t h) h := rfl
      rw [e1, e2, if_neg hx, ih ht]

/-! ## Claim C5: press/release round trip on the live report -/

/-- **C5 (counterexample).** The claim fails for a starting report in
which the key's HID code is already active: with the left-Shift bit
(0x02) already set, `keyPress(0x60)` is idempotent on the modifier byte
but `keyRelease(0x60)` clears it, so the report is not restored to its
pre-press state. -/
theorem press_release_not_restoring :
    (keyRelease 0x60 (keyPress 0x60 shiftHeldSys)).keyReport ≠
      shiftHeldSys.keyReport := by decide

/-- **C5 (amended).** For every valid key code `k` and every starting
state of the live HID report in which `k`'s HID code is not already
active (its modifier bit clear, or its non-zero HID code in no key
slot), `keyPress(k)` followed immediately by `keyRelease(k)` restores
the live HID report — modifier byte and all six key slots — exactly. -/
theorem press_release_restores (s : SysState) (keyCode : Nat)
    (hk : keyCode < AMIGA_KEY_COUNT)
    (hmod : s.keyReport.modifiers < 256)
    (hact : ¬ hidActive s.keyReport keyCode) :
    (keyRelease keyCode (keyPress keyCode s)).keyReport = s.keyReport := by
  rw [keyRelease_keyReport, keyPress_keyReport]
  unfold hidActive at hact
  cases hc : isAmigaModifierKey keyCode
  · rw [if_neg (by simp [hc]), if_neg (by simp [hc])]
    rw [if_neg (by simp [hc])] at hact
    by_cases h0 : keyTable.getD keyCode 0 = 0
    · rw [h0, replaceFirstZero_zero, clearMatching_zero]
    · have hmem : keyTable.getD keyCode 0 ∉ s.keyReport.keys := by tauto
      rw [clear_replace _ _ h0 hmem]
  · rw [if_pos (by simp [hc]), if_pos (by simp [hc])]
    rw [if_pos (by simp [hc])] at hact
    have hz : s.keyReport.modifiers &&& keyTable.getD keyCode 0 = 0 :=
      not_ne_iff.mp hact
    rw [lor_mask_restore _ _ hmod (keyTable_getD_lt _) hz]

theorem press_release_restores_witness :
    (keyRelease 0x20 (keyPress 0x20 zeroSys)).keyReport = zeroSys.keyReport :=
  press_release_restores zeroSys 0x20 (by decide) (by decide) (by decide)

/-! ## Claim C6: no-duplicate invariant and exact release -/

/-- **C6 (counterexample).** The no-duplicate invariant is not preserved
by arbitrary sequences of `keyPress`/`keyRelease` calls from the all-zero
report: two consecutive `keyPress(0x20)` calls (HID code 0x04) put 0x04
into two key slots, because `keyPress` never checks whether the code is
already present. -/
theorem duplicate_slots_reachable :
    ((keyPress 0x20 (keyPress 0x20 zeroSys)).keyReport.keys.count 0x04) = 2 := by
  decide

theorem count_replaceFirstZero_self (l : List Nat) (h : Nat) (hm : h ∉ l) :
    (replaceFirstZero l h).count h ≤ 1 := by
  induction l with
  | nil => simp [replaceFirstZero]
  | cons x t ih =>
    have hx : x ≠ h := fun he => hm (by simp [he])
    have ht : h ∉ t := fun he => hm (by simp [he])
    by_cases hx0 : x = 0
    · have e1 : replaceFirstZero (x :: t) h = h :: t := by
        simp [replaceFirstZero, hx0]
      rw [e1, List.count_cons]
      have : t.count h = 0 := List.count_eq_zero.mpr ht
      simp [this]
    · have e1 : replaceFirstZero (x :: t) h = x :: replaceFirstZero t h := by
        simp [replaceFirstZero, hx0]
      rw [e1, List.count_cons]
      have hxh : ¬ ((x == h) = true) := by simp [hx]
      simp only [if_neg hxh]
      simpa using ih ht

theorem count_replaceFirstZero_other (l : List Nat) (h v : Nat) (hv0 : v ≠ 0)
    (hvh : v ≠ h) : (replaceFirstZero l h).count v = l.count v := by
  induction l with
  | nil => rfl
  | cons x t ih =>
    by_cases hx0 : x = 0
    · have e1 : replaceFirstZero (x :: t) h = h :: t := by
        simp [replaceFirstZero, hx0]
      rw [e1, List.count_cons, List.count_cons]
      have h1 : ¬ ((h == v) = true) := by
        simp only [beq_iff_eq]
        exact fun he => hvh he.symm
      have h2 : ¬ ((x == v) = true) := by
        simp only [beq_iff_eq, hx0]
        exact fun he => hv0 he.symm
      simp [h1, h2]
    · have e1 : replaceFirstZero (x :: t) h = x :: replaceFirstZero t h := by
        simp [replaceFirstZero, hx0]
      rw [e1, List.count_cons, List.count_cons, ih]

theorem count_clearMatching_le (l : List Nat) (h v : Nat) (hv0 : v ≠ 0) :
    (clearMatching l h).count v ≤ l.count v := by
  induction l with
  | nil => simp [clearMatching]
  | cons x t ih =>
    have e1 : clearMatching (x :: t) h =
        (if x = h then 0 else x) :: clearMatching t h := rfl
    rw [e1, List.count_cons, List.count_cons]
    by_cases hxh : x = h
    · have h1 : ¬ (((if x = h then 0 else x) == v) = true) := by
        simp [hxh]; omega
      simp only [if_neg h1]
      omega
    · simp only [if_neg hxh]
      omega

theorem count_mem_or_zero (l : List Nat) (v : Nat) :
    v ∈ l ∨ l.count v = 0 := by
  by_cases hm : v ∈ l
  · exact Or.inl hm
  · exact Or.inr (List.count_eq_zero.mpr hm)

theorem noDupKeys_iff (l : List Nat) :
    noDupKeys l ↔ ∀ v, v ≠ 0 → l.count v ≤ 1 := by
  constructor
  · intro h v hv
    rcases count_mem_or_zero l v with hm | hz
    · exact h v hm hv
    · omega
  · intro h v _ hv
    exact h v hv

theorem clearMatching_getD (l : List Nat) (h i : Nat) :
    (clearMatching l h).getD i 0 =
      if l.getD i 0 = h then 0 else l.getD i 0 := by
  by_cases hi : i < l.length
  · unfold clearMatching
    rw [List.getD_eq_getElem _ _ (by simpa [clearMatching] using hi),
      List.getElem_map, List.getD_eq_getElem _ _ hi]
  · have h1 : l.getD i 0 = 0 := List.getD_eq_default _ _ (by omega)
    have h2 : (clearMatching l h).getD i 0 = 0 :=
      List.getD_eq_default _ _ (by simpa [clearMatching] using (by omega : l.length ≤ i))
    rw [h1, h2]
    by_cases h0 : (0 : Nat) = h <;> simp [h0]

/-- **C6 (amended).** `keyPress` preserves the no-duplicate invariant
when the pressed key's HID code is not already active (without that
precondition the invariant fails, see the counterexample), `keyRelease`
always preserves it, and `keyRelease(k)` clears exactly the slots whose
content equals `k`'s HID code, leaving all other slots and the modifier
byte unchanged; for a modifier key it clears only `k`'s modifier bits
and leaves the slots unchanged. -/
theorem noDup_and_release_exact (s : SysState) (keyCode : Nat)
    (hk : keyCode < AMIGA_KEY_COUNT) :
    (noDupKeys s.keyReport.keys → ¬ hidActive s.keyReport keyCode →
      noDupKeys (keyPress keyCode s).keyReport.keys) ∧
    (noDupKeys s.keyReport.keys →
      noDupKeys (keyRelease keyCode s).keyReport.keys) ∧
    (isAmigaModifierKey keyCode = false →
      (keyRelease keyCode s).keyReport.modifiers = s.keyReport.modifiers ∧
      ∀ i, (keyRelease keyCode s).keyReport.keys.getD i 0 =
        if s.keyReport.keys.getD i 0 = keyTable.getD keyCode 0 then 0
        else s.keyReport.keys.getD i 0) ∧
    (isAmigaModifierKey keyCode = true → s.keyReport.modifiers < 256 →
      (keyRelease keyCode s).keyReport.keys = s.keyReport.keys ∧
      ∀ b, (keyTable.getD keyCode 0).testBit b = false →
        (keyRelease keyCode s).keyReport.modifiers.testBit b =
          s.keyReport.modifiers.testBit b) := by
  refine ⟨?_, ?_, ?_, ?_⟩
  · intro hnd hact
    rw [keyPress_keyReport]
    unfold hidActive at hact
    rw [noDupKeys_iff] at hnd
    cases hc : isAmigaModifierKey keyCode
    · rw [if_neg (by simp [hc])]
      rw [if_neg (by simp [hc])] at hact
      rw [noDupKeys_iff]
      intro v hv
      by_cases h0 : keyTable.getD keyCode 0 = 0
      · rw [h0, replaceFirstZero_zero]
        exact hnd v hv
      · have hmem : keyTable.getD keyCode 0 ∉ s.keyReport.keys := by tauto
        by_cases hvh : v = keyTable.getD keyCode 0
        · rw [hvh]
          exact count_replaceFirstZero_self _ _ hmem
        · rw [count_replaceFirstZero_other _ _ _ hv hvh]
          exact hnd v hv
    · rw [if_pos (by simp [hc])]
      rw [noDupKeys_iff]
      exact fun v hv => hnd v hv
  · intro hnd
    rw [keyRelease_keyReport]
    rw [noDupKeys_iff] at hnd
    cases hc : isAmigaModifierKey keyCode
    · rw [if_neg (by simp [hc])]
      rw [noDupKeys_iff]
      intro v hv
      exact le_trans (count_clearMatching_le _ _ _ hv) (hnd v hv)
    · rw [if_pos (by simp [hc])]
      rw [noDupKeys_iff]
      exact fun v hv => hnd v hv
  · intro hc
    rw [keyRelease_keyReport, if_neg (by simp [hc])]
    exact ⟨rfl, fun i => clearMatching_getD _ _ _⟩
  · intro hc hmod
    rw [keyRelease_keyReport, if_pos (by simp [hc])]
    exact ⟨rfl, fun b hb => land_mask_testBit _ _ _ hmod hb⟩

theorem noDup_and_release_exact_witness :
    noDupKeys (keyPress 0x20 zeroSys).keyReport.keys ∧
      (keyRelease 0x20 zeroSys).keyReport.modifiers =
        zeroSys.keyReport.modifiers :=
  ⟨(noDup_and_release_exact zeroSys 0x20 (by decide)).1 (by decide) (by decide),
   ((noDup_and_release_exact zeroSys 0x20 (by decide)).2.2.1 (by decide)).1⟩

/-! ## Claim C7: playMacroSlot at the concurrency cap -/

/-- **C7 (counterexample).** With the concurrency cap reached (2 slots
playing) and the macro virtual keyboard holding a key, calling
`playMacroSlot` on a non-playing slot is not a no-op: the start
condition fails, so the call falls into the stop/toggle `else` branch,
which runs `releaseAllMacro()` and clears the macro HID report. -/
theorem playMacroSlot_at_cap_not_noop :
    nMacrosPlaying twoPlayingSys = CONCURENT_MACROS ∧
      (twoPlayingSys.macroPlayStatus.getD 2 clearedPlayStatus).playing = false ∧
      (playMacroSlot 2 twoPlayingSys).macroKeyReport ≠
        twoPlayingSys.macroKeyReport := by decide

theorem releaseAllMacroReport_fields (t : SysState) :
    (releaseAllMacroReport t).macroKeyReport = zeroKeyReport ∧
    (releaseAllMacroReport t).macroPrevkeyReport = zeroKeyReport ∧
    (releaseAllMacroReport t).keyReport = t.keyReport ∧
    (releaseAllMacroReport t).macros = t.macros ∧
    (releaseAllMacroReport t).recording = t.recording ∧
    (releaseAllMacroReport t).macroPlayStatus = t.macroPlayStatus := by
  unfold releaseAllMacroReport sendMacroReport
  split
  · next hcond => exact ⟨rfl, hcond.symm, rfl, rfl, rfl, rfl⟩
  · exact ⟨rfl, rfl, rfl, rfl, rfl, rfl⟩

/-- **C7 (amended).** For every slot `n` that is not currently playing,
calling `playMacroSlot(n)` when the number of playing slots equals
`CONCURENT_MACROS` (2) does not start slot `n` — its status is the
cleared status (playing remains `false`) and every other slot's status
is unchanged, as are the live report, the macros and the recording flag
— but it is not a complete no-op: the call executes the stop/toggle
branch, which zeroes slot `n`'s status fields and clears (and sends) the
macro HID report. -/
theorem playMacroSlot_at_cap (s : SysState) (n : Nat)
    (hnp : (s.macroPlayStatus.getD n clearedPlayStatus).playing = false)
    (hcap : nMacrosPlaying s = CONCURENT_MACROS) :
    (playMacroSlot n s).macroPlayStatus.getD n clearedPlayStatus =
      clearedPlayStatus ∧
    (∀ m, m ≠ n →
      (playMacroSlot n s).macroPlayStatus.getD m clearedPlayStatus =
        s.macroPlayStatus.getD m clearedPlayStatus) ∧
    (playMacroSlot n s).macroKeyReport = zeroKeyReport ∧
    (playMacroSlot n s).macroPrevkeyReport = zeroKeyReport ∧
    (playMacroSlot n s).keyReport = s.keyReport ∧
    (playMacroSlot n s).macros = s.macros ∧
    (playMacroSlot n s).recording = s.recording := by
  have hbr : playMacroSlot n s =
      releaseAllMacroReport
        { s with macroPlayStatus := s.macroPlayStatus.set n clearedPlayStatus } := by
    unfold playMacroSlot
    rw [if_neg]
    rintro ⟨-, -, h3⟩
    rw [hcap] at h3
    exact lt_irrefl _ h3
  obtain ⟨f1, f2, f3, f4, f5, f6⟩ := releaseAllMacroReport_fields
    { s with macroPlayStatus := s.macroPlayStatus.set n clearedPlayStatus }
  rw [hbr]
  refine ⟨?_, ?_, f1, f2, f3, f4, f5⟩
  · rw [f6]
    by_cases hn : n < s.macroPlayStatus.length
    · rw [List.getD_eq_getElem?_getD, List.getElem?_set_self hn]
      rfl
    · rw [List.getD_eq_getElem?_getD]
      have : (s.macroPlayStatus.set n clearedPlayStatus)[n]? = none := by
        rw [List.getElem?_eq_none_iff]
        simp only [List.length_set]
        omega
      rw [this]
      rfl
  · intro m hm
    rw [f6, List.getD_eq_getElem?_getD, List.getD_eq_getElem?_getD,
      List.getElem?_set_ne (Ne.symm hm)]

theorem playMacroSlot_at_cap_witness :
    (playMacroSlot 2 twoPlayingSys).macroPlayStatus.getD 2 clearedPlayStatus =
      clearedPlayStatus ∧
    (playMacroSlot 2 twoPlayingSys).macroKeyReport = zeroKeyReport ∧
    (playMacroSlot 2 twoPlayingSys).keyReport = twoPlayingSys.keyReport :=
  ⟨(playMacroSlot_at_cap twoPlayingSys 2 (by decide) (by decide)).1,
   (playMacroSlot_at_cap twoPlayingSys 2 (by decide) (by decide)).2.2.1,
   (playMacroSlot_at_cap twoPlayingSys 2 (by decide) (by decide)).2.2.2.2.1⟩

/-! ## Claim C8: function-layer key-up suppression -/

@[simp]
theorem sendReport_ignoreNextRelease (s : SysState) :
    (sendReport s).ignoreNextRelease = s.ignoreNextRelease := by
  unfold sendReport; split <;> rfl

@[simp]
theorem sendMacroReport_ignoreNextRelease (s : SysState) :
    (sendMacroReport s).ignoreNextRelease = s.ignoreNextRelease := by
  unfold sendMacroReport; split <;> rfl

@[simp]
theorem releaseAllMacroReport_ignoreNextRelease (s : SysState) :
    (releaseAllMacroReport s).ignoreNextRelease = s.ignoreNextRelease := by
  unfold releaseAllMacroReport
  rw [sendMacroReport_ignoreNextRelease]

@[simp]
theorem stopAllMacros_ignoreNextRelease (s : SysState) :
    (stopAllMacros s).ignoreNextRelease = s.ignoreNextRelease := by
  unfold stopAllMacros
  rw [releaseAllMacroReport_ignoreNextRelease]

@[simp]
theorem resetMacros_ignoreNextRelease (s : SysState) :
    (resetMacros s).ignoreNextRelease = s.ignoreNextRelease := by
  simp only [resetMacros, cleanMacros]
  rw [stopAllMacros_ignoreNextRelease]

@[simp]
theorem startRecording_ignoreNextRelease (s : SysState) :
    (startRecording s).ignoreNextRelease = s.ignoreNextRelease := by
  unfold startRecording
  split
  · rw [stopAllMacros_ignoreNextRelease]
  · rfl

@[simp]
theorem stopRecording_ignoreNextRelease (s : SysState) :
    (stopRecording s).ignoreNextRelease = s.ignoreNextRelease := by
  simp only [stopRecording]
  split <;> rfl

@[simp]
theorem keystroke_ignoreNextRelease (a b : Nat) (s : SysState) :
    (keystroke a b s).ignoreNextRelease = s.ignoreNextRelease := by
  unfold keystroke
  split
  · rfl
  · simp

@[simp]
theorem multimediaKeystroke_ignoreNextRelease (a : Nat) (s : SysState) :
    (multimediaKeystroke a s).ignoreNextRelease = s.ignoreNextRelease := rfl

@[simp]
theorem playMacroSlot_ignoreNextRelease (n : Nat) (s : SysState) :
    (playMacroSlot n s).ignoreNextRelease = s.ignoreNextRelease := by
  unfold playMacroSlot
  split
  · rfl
  · rw [releaseAllMacroReport_ignoreNextRelease]

/-- Every function-layer action preserves the `ignoreNextRelease` marker
that `handleFunctionModeKey` sets on entry (stated for the mapped
codes). -/
theorem functionLayerAction_ignoreNextRelease (k : Nat) (t : SysState)
    (hk : k ∈ functionLayerCodes) :
    (functionLayerAction k t).ignoreNextRelease = t.ignoreNextRelease := by
  fin_cases hk <;>
    simp only [functionLayerAction] <;>
    norm_num

theorem handleFunctionModeKey_ignoreNextRelease (k : Nat) (s : SysState)
    (hk : k ∈ functionLayerCodes) :
    (handleFunctionModeKey k s).ignoreNextRelease = k := by
  unfold handleFunctionModeKey
  rw [functionLayerAction_ignoreNextRelease k _ hk]

/-- Pressing `Help` (0x5F) only toggles function mode on. -/
theorem processKeyCode_help_press (s : SysState) :
    processKeyCode 0x5F true s = { s with functionMode := true } := by
  unfold processKeyCode
  rw [if_neg (by norm_num [AMIGA_KEY_COUNT]), if_neg (by simp), if_pos rfl]

/-- With function mode active, a key-down of a non-special code in range
is dispatched to `handleFunctionModeKey`. -/
theorem processKeyCode_function_press (c : Nat) (t : SysState)
    (hf : t.functionMode = true) (hlt : c < AMIGA_KEY_COUNT)
    (h1 : c ≠ 0x5F) (h2 : c ≠ 0x62) (h3 : c ≠ 0x5A) (h4 : c ≠ 0x5B) :
    processKeyCode c true t = handleFunctionModeKey c t := by
  unfold processKeyCode
  rw [if_neg (not_not_intro hlt), if_neg (by simp), if_neg h1,
    if_neg (by simp [h2]), if_neg (by simp [h3]), if_neg (by simp [h4]),
    if_pos (by simp [hf])]

/-- A key-up whose code equals the pending `ignoreNextRelease` marker is
consumed: the only state change is clearing the marker. -/
theorem processKeyCode_release_consumed (c : Nat) (t : SysState)
    (hlt : c < AMIGA_KEY_COUNT) (hpos : 0 < c)
    (hig : t.ignoreNextRelease = c) :
    processKeyCode c false t = { t with ignoreNextRelease := 0 } := by
  unfold processKeyCode
  rw [if_neg (not_not_intro hlt), if_pos ⟨by omega, hig, by simp⟩]

/-- **C8.** For the event sequence press `Help` (0x5F), press a code `c`
mapped in the function layer, release `c`: the key-down of `c` is
reinterpreted as its alternate function, and the key-up of `c` is
consumed by the dispatcher — the release's only effect is clearing the
`ignoreNextRelease` marker, so it never reaches the live HID report
(`keyReport` is unchanged by the release). -/
theorem function_layer_release_consumed (s : SysState) (c : Nat)
    (hc : c ∈ functionLayerCodes) :
    processKeyCode c true (processKeyCode 0x5F true s) =
      handleFunctionModeKey c { s with functionMode := true } ∧
    processKeyCode c false
        (processKeyCode c true (processKeyCode 0x5F true s)) =
      { processKeyCode c true (processKeyCode 0x5F true s) with
          ignoreNextRelease := 0 } ∧
    (processKeyCode c false
        (processKeyCode c true (processKeyCode 0x5F true s))).keyReport =
      (processKeyCode c true (processKeyCode 0x5F true s)).keyReport := by
  have hlt : c < AMIGA_KEY_COUNT := by fin_cases hc <;> decide
  have hpos : 0 < c := by fin_cases hc <;> decide
  have h1 : c ≠ 0x5F := by fin_cases hc <;> decide
  have h2 : c ≠ 0x62 := by fin_cases hc <;> decide
  have h3 : c ≠ 0x5A := by fin_cases hc <;> decide
  have h4 : c ≠ 0x5B := by fin_cases hc <;> decide
  have e1 : processKeyCode c true (processKeyCode 0x5F true s) =
      handleFunctionModeKey c { s with functionMode := true } := by
    rw [processKeyCode_help_press,
      processKeyCode_function_press c _ rfl hlt h1 h2 h3 h4]
  have hig : (processKeyCode c true (processKeyCode 0x5F true s)).ignoreNextRelease = c := by
    rw [e1, handleFunctionModeKey_ignoreNextRelease c _ hc]
  have e2 : processKeyCode c false
      (processKeyCode c true (processKeyCode 0x5F true s)) =
      { processKeyCode c true (processKeyCode 0x5F true s) with
          ignoreNextRelease := 0 } :=
    processKeyCode_release_consumed c _ hlt hpos hig
  exact ⟨e1, e2, by rw [e2]⟩

theorem function_layer_release_consumed_witness :
    processKeyCode 0x50 false
        (processKeyCode 0x50 true (processKeyCode 0x5F true zeroSys)) =
      { processKeyCode 0x50 true (processKeyCode 0x5F true zeroSys) with
          ignoreNextRelease := 0 } ∧
    (processKeyCode 0x50 false
        (processKeyCode 0x50 true (processKeyCode 0x5F true zeroSys))).keyReport =
      (processKeyCode 0x50 true (processKeyCode 0x5F true zeroSys)).keyReport :=
  ⟨(function_layer_release_consumed zeroSys 0x50 (by decide)).2.1,
   (function_layer_release_consumed zeroSys 0x50 (by decide)).2.2⟩

end A500
